import Mathlib

/-!
Verification of the crawl-ai ingestion pipeline against its specification.

The Lean definitions below are a shallow embedding of the Python sources:

* `src/processors/keyword_matcher.py` — `KeywordMatcher` (lookup construction,
  exact/synonym passes, deduplication, final sort);
* `src/core/ai_orchestrator.py` — `AIOrchestrator.request` (task routing and
  provider fallback);
* `src/crawlers/base.py` — `BaseCrawler.fetch` (tenacity retry wrapper),
  `BaseCrawler.crawl` and `_attempt_self_heal`, `CrawlResult.content_hash`;
* `src/scheduler/tasks.py` — `_crawl_source_async` (save loop, source status
  accounting, job bookkeeping), `_crawl_all_sources_async`,
  `_send_notifications_async`, `_send_pending_notifications_async`;
* `src/processors/ai_processor.py` — `AIContentProcessor.process`,
  `_analyze_content`, `_validate_result`, `_get_default_result`.

Python strings are Lean `String`s; `str.lower` and the regex word-character
class are parameters (`TextModel`) since their unicode tables are irrelevant
to the properties; Python floats carrying scores are `ℚ` (all score
constants and comparisons in the sources are exactly representable);
SHA-256 is an uninterpreted function of the hashed string; the database
session is explicit state (a list of stored content hashes, a `Source`
record, a `JobExecution` record).
-/

namespace CrawlAI

/-! ## Text model

`str.lower` and the `\w` character class of Python's `re` module, kept
abstract as parameters. `boundaryAt` is the semantics of the zero-width
assertion `\b`: it holds between two positions exactly when one side is a
word character and the other is not (the ends of the string count as
non-word). -/

structure TextModel where
  lower : Char → Char
  isWord : Char → Bool

def lowerStr (tm : TextModel) (s : String) : String :=
  ⟨s.data.map tm.lower⟩

def charIsWordAt (tm : TextModel) (s : List Char) (i : Nat) : Bool :=
  match s[i]? with
  | some c => tm.isWord c
  | none => false

def boundaryAt (tm : TextModel) (s : List Char) (i : Nat) : Bool :=
  (if i = 0 then false else charIsWordAt tm s (i - 1)) != charIsWordAt tm s i

/-- `re.search(rf'\b{re.escape(kw)}\b', text)` for a literal (escaped)
keyword `kw`: some position `i` carries a word boundary, is followed by the
keyword's characters, and a word boundary follows them. -/
def matchesWordAt (tm : TextModel) (kw s : List Char) (i : Nat) : Bool :=
  boundaryAt tm s i && kw.isPrefixOf (s.drop i) && boundaryAt tm s (i + kw.length)

def occursWholeWord (tm : TextModel) (kw s : List Char) : Bool :=
  (List.range (s.length + 1)).any (fun i => matchesWordAt tm kw s i)

/-! ## Keyword matcher (`src/processors/keyword_matcher.py`) -/

/-- `MatchResult` dataclass. -/
structure MatchResult where
  keyword : String
  keyword_group : String
  match_type : String
  score : ℚ
  matched_text : Option String
deriving DecidableEq, Repr

/-- The taxonomy passed to `KeywordMatcher.__init__`:
`{group_name: {keyword: [synonyms]}}`, with Python-dict insertion order kept
as list order. -/
def Taxonomy : Type := List (String × List (String × List String))

/-- Assignment `d[k] = v` into a Python dict rendered as an association
list: an existing key keeps its position and gets the new value, a fresh
key is appended. -/
def dictInsert {α : Type} (m : List (String × α)) (k : String) (v : α) :
    List (String × α) :=
  if m.any (fun p => p.1 = k) then
    m.map (fun p => if p.1 = k then (k, v) else p)
  else m ++ [(k, v)]

/-- `_build_lookups`, exact half: for each group, for each keyword,
`self.exact_lookup[keyword.lower()] = (group_name, keyword)`. -/
def build_exact_lookup (tm : TextModel) (keywords : Taxonomy) :
    List (String × (String × String)) :=
  keywords.foldl
    (fun acc g =>
      g.2.foldl (fun acc2 kw => dictInsert acc2 (lowerStr tm kw.1) (g.1, kw.1)) acc)
    []

/-- `_build_lookups`, synonym half: for each group, keyword and synonym,
`self.synonym_lookup[synonym.lower()] = (group_name, keyword)`. -/
def build_synonym_lookup (tm : TextModel) (keywords : Taxonomy) :
    List (String × (String × String)) :=
  keywords.foldl
    (fun acc g =>
      g.2.foldl
        (fun acc2 kw =>
          kw.2.foldl (fun acc3 syn => dictInsert acc3 (lowerStr tm syn) (g.1, kw.1)) acc2)
        acc)
    []

structure KeywordMatcher where
  tm : TextModel
  keywords : Taxonomy

def KeywordMatcher.exact_lookup (m : KeywordMatcher) : List (String × (String × String)) :=
  build_exact_lookup m.tm m.keywords

def KeywordMatcher.synonym_lookup (m : KeywordMatcher) : List (String × (String × String)) :=
  build_synonym_lookup m.tm m.keywords

/-- `_match_exact`: iterate `exact_lookup.items()`; on a whole-word hit
append a result with score 1.0 and type `exact`. -/
def KeywordMatcher.match_exact (m : KeywordMatcher) (textLower : List Char) :
    List MatchResult :=
  m.exact_lookup.filterMap (fun p =>
    if occursWholeWord m.tm p.1.data textLower then
      some { keyword := p.2.2, keyword_group := p.2.1, match_type := "exact",
             score := 1, matched_text := some p.2.2 }
    else none)

/-- `_match_synonyms`: same over `synonym_lookup`, score 0.9, type
`synonym`, `matched_text` is the lowercased synonym. -/
def KeywordMatcher.match_synonyms (m : KeywordMatcher) (textLower : List Char) :
    List MatchResult :=
  m.synonym_lookup.filterMap (fun p =>
    if occursWholeWord m.tm p.1.data textLower then
      some { keyword := p.2.2, keyword_group := p.2.1, match_type := "synonym",
             score := (9 : ℚ)/10, matched_text := some p.1 }
    else none)

/-- The deduplication key `f"{result.keyword_group}:{result.keyword}"`. -/
def resKey (r : MatchResult) : String :=
  r.keyword_group ++ ":" ++ r.keyword

/-- One iteration of the dedup loop in `match`:
`if key not in seen or result.score > seen[key].score: seen[key] = result`. -/
def dedupStep (seen : List (String × MatchResult)) (r : MatchResult) :
    List (String × MatchResult) :=
  match seen.find? (fun p => p.1 = resKey r) with
  | none => seen ++ [(resKey r, r)]
  | some p =>
    if p.2.score < r.score then
      seen.map (fun q => if q.1 = resKey r then (q.1, r) else q)
    else seen

/-- The dedup pass of `match`: build `seen` and take `list(seen.values())`. -/
def dedupResults (rs : List MatchResult) : List MatchResult :=
  (rs.foldl dedupStep []).map (fun p => p.2)

/-- Sort order of `final_results.sort(key=lambda x: x.score, reverse=True)`:
score descending. `list.sort` is stable, and a stable sort under a total
preorder is unique, so the stable `List.insertionSort` renders it exactly. -/
def scoreDesc (a b : MatchResult) : Prop :=
  b.score ≤ a.score

instance : DecidableRel scoreDesc := fun a b => inferInstanceAs (Decidable (b.score ≤ a.score))

instance : IsTotal MatchResult scoreDesc :=
  ⟨fun a b => le_total b.score a.score⟩

instance : IsTrans MatchResult scoreDesc :=
  ⟨fun _ _ _ h1 h2 => le_trans h2 h1⟩

/-- `KeywordMatcher.match` with semantic matching disabled
(`use_semantic=False`): exact pass, synonym pass, dedup keeping the highest
score per key, stable sort by score descending. -/
def KeywordMatcher.matchText (m : KeywordMatcher) (text : String) : List MatchResult :=
  List.insertionSort scoreDesc
    (dedupResults
      (m.match_exact (lowerStr m.tm text).data ++
        m.match_synonyms (lowerStr m.tm text).data))

/-- Building a Python dict from a list of key/value assignments in order. -/
def buildDict (entries : List (String × (String × String))) :
    List (String × (String × String)) :=
  entries.foldl (fun a e => dictInsert a e.1 e.2) []

/-- The value of the *last* assignment with key `k` in an assignment list —
what a Python dict holds at `k` after replaying the assignments in order. -/
def lastAssoc {α : Type} (L : List (String × α)) (k : String) : Option α :=
  ((L.filter (fun e => e.1 = k)).map Prod.snd).getLast?

/-- All `(group, canonical, synonyms)` triples of a taxonomy in iteration
order. -/
def taxPairs (T : Taxonomy) : List (String × String × List String) :=
  T.flatMap (fun g => g.2.map (fun kw => (g.1, kw.1, kw.2)))

/-- The exact-lookup entries in insertion order, before dict collapsing. -/
def exactEntries (tm : TextModel) (T : Taxonomy) : List (String × (String × String)) :=
  (taxPairs T).map (fun p => (lowerStr tm p.2.1, (p.1, p.2.1)))

/-- The synonym-lookup entries in insertion order, before dict collapsing. -/
def synEntries (tm : TextModel) (T : Taxonomy) : List (String × (String × String)) :=
  (taxPairs T).flatMap (fun p => p.2.2.map (fun s => (lowerStr tm s, (p.1, p.2.1))))

/-- Whether the canonical form of a keyword occurs whole-word in the
lowercased text. -/
def canonOccurs (tm : TextModel) (c : String) (textLower : List Char) : Bool :=
  occursWholeWord tm (lowerStr tm c).data textLower

/-- Whether some synonym of a keyword occurs whole-word in the lowercased
text. -/
def synOccurs (tm : TextModel) (syns : List String) (textLower : List Char) : Bool :=
  syns.any (fun s => occursWholeWord tm (lowerStr tm s).data textLower)

/-- An ASCII instantiation of the text model used for concrete witnesses:
`Char.toLower` and `[A-Za-z0-9_]` word characters. -/
def asciiTM : TextModel where
  lower := Char.toLower
  isWord := fun c => c.isAlphanum || c = '_'

/-- A text model for witnesses with non-ASCII text: Python's unicode `\w`
restricted to the characters appearing in the witnesses (ASCII alphanumerics,
underscore, and every non-ASCII character, which covers Hangul). -/
def uniTM : TextModel where
  lower := Char.toLower
  isWord := fun c => c.isAlphanum || c = '_' || 128 ≤ c.toNat

/-! ## AI orchestrator (`src/core/ai_orchestrator.py`) -/

inductive AIProvider
  | openai
  | anthropic
  | google
  | perplexity
deriving DecidableEq, Repr

inductive AITaskType
  | search
  | summarize
  | analyze
  | classify
  | extract
  | generate_code
  | multimodal
deriving DecidableEq, Repr

/-- `TASK_PROVIDER_MAP` (every task type has an entry, so the
`list(AIProvider)` fallback of `.get` is dead). -/
def TASK_PROVIDER_MAP : AITaskType → List AIProvider
  | .search => [.perplexity, .openai]
  | .summarize => [.openai, .anthropic, .google]
  | .analyze => [.anthropic, .openai, .google]
  | .classify => [.openai, .anthropic, .google]
  | .extract => [.anthropic, .openai, .google]
  | .generate_code => [.anthropic, .openai]
  | .multimodal => [.google, .openai]

structure AIResponse where
  content : String
  provider : AIProvider
  model : String
deriving DecidableEq, Repr

/-- Outcome of one `client.complete` call under `asyncio.wait_for`:
a response, an exception, or a timeout. -/
inductive ProviderOutcome
  | success (resp : AIResponse)
  | failure (err : String)
  | timeout
deriving DecidableEq, Repr

def ProviderOutcome.failed : ProviderOutcome → Bool
  | .success _ => false
  | .failure _ => true
  | .timeout => true

/-- The `last_error` recorded for a failed call (`TimeoutError(f"{provider}
request timed out")` on timeout, the exception text otherwise). -/
def outcomeError (p : AIProvider) : ProviderOutcome → Option String
  | .success _ => none
  | .failure e => some e
  | .timeout => some (reprStr p ++ " request timed out")

inductive RequestError
  | noProviderAvailable
  | allProvidersFailed (lastError : Option String)
deriving DecidableEq, Repr

/-- The orchestrator's environment for one `request` call: which clients
report `is_available`, and what each provider's `complete` call would do. -/
structure Orchestrator where
  available : AIProvider → Bool
  behavior : AIProvider → ProviderOutcome

def Orchestrator.get_providers_for_task (o : Orchestrator) (task : AITaskType) :
    List AIProvider :=
  (TASK_PROVIDER_MAP task).filter o.available

/-- Provider selection at the head of `request`: an available preferred
provider is used alone, otherwise the task's ordered list filtered to
available providers. -/
def Orchestrator.selectProviders (o : Orchestrator) (task : AITaskType)
    (preferred : Option AIProvider) : List AIProvider :=
  match preferred with
  | some p => if o.available p then [p] else o.get_providers_for_task task
  | none => o.get_providers_for_task task

/-- The fallback loop of `request`: call each provider in turn, return the
first success, remember the last error; also records which providers were
invoked. -/
def tryProviders (behavior : AIProvider → ProviderOutcome) :
    List AIProvider → Option String → (Except RequestError AIResponse × List AIProvider)
  | [], last => (.error (.allProvidersFailed last), [])
  | p :: ps, _ =>
    match behavior p with
    | .success r => (.ok r, [p])
    | o =>
      let rest := tryProviders behavior ps (outcomeError p o)
      (rest.1, p :: rest.2)

/-- `AIOrchestrator.request`: provider selection, the empty-list
`RuntimeError`, then the fallback loop. The second component lists the
providers whose `complete` was invoked, in order. -/
def Orchestrator.request (o : Orchestrator) (task : AITaskType)
    (preferred : Option AIProvider) : Except RequestError AIResponse × List AIProvider :=
  let ps := o.selectProviders task preferred
  if ps.isEmpty then (.error .noProviderAvailable, [])
  else tryProviders o.behavior ps none

/-! ## HTTP fetch with retries (`BaseCrawler.fetch`)

`fetch` is wrapped in `@retry(stop=stop_after_attempt(settings.crawler_max_retries), ...)`
with no retry predicate, so tenacity retries on *every* exception — transport
errors and the `HTTPStatusError` raised by `response.raise_for_status()` on
any non-2xx status alike — and after the last attempt raises a `RetryError`
wrapping the final exception.  An attempt outcome is the body text or the
exception text. -/

def crawler_max_retries : Nat := 3

/-- Run the tenacity loop: `fuel` remaining attempts, `i` the index of the
next attempt.  Returns the result and the number of attempts performed. -/
def runFetchAux (att : Nat → Except String String) :
    Nat → Nat → (Except String String × Nat)
  | 0, _ => (.error "RetryError", 0)
  | fuel + 1, i =>
    match att i with
    | .ok body => (.ok body, i + 1)
    | .error e =>
      if fuel = 0 then (.error ("RetryError: " ++ e), i + 1)
      else runFetchAux att fuel (i + 1)

/-- `BaseCrawler.fetch` under the retry decorator: up to `maxAttempts`
attempts, each attempt's outcome given by `att`. -/
def runFetch (att : Nat → Except String String) (maxAttempts : Nat) :
    Except String String × Nat :=
  runFetchAux att maxAttempts 0

/-! ## Crawler results and `BaseCrawler.crawl` (`src/crawlers/base.py`) -/

/-- `CrawlResult` dataclass (metadata omitted: no claim reads it). -/
structure CrawlResult where
  url : String
  title : String
  content : Option String
  published_at : Option Nat
deriving DecidableEq, Repr

/-- `CrawlResult.content_hash`:
`hashlib.sha256(f"{url}{title}{content or ''}".encode()).hexdigest()`.
SHA-256 itself is an uninterpreted function `h` of the hashed string; every
claim about the hash only needs that it is a function of
`url ‖ title ‖ (content or "")`. -/
def content_hash (h : String → String) (r : CrawlResult) : String :=
  h (r.url ++ r.title ++ r.content.getD "")

/-- Selector config relevant to self-healing. -/
structure CrawlerConfig where
  list_selector : Option String
  title_selector : Option String
  link_selector : Option String
  date_selector : Option String
  content_selector : Option String
deriving DecidableEq, Repr

/-- `"parse" in str(e).lower()` — substring containment. -/
def containsSub (sub s : List Char) : Bool :=
  (List.range (s.length + 1)).any (fun i => sub.isPrefixOf (s.drop i))

/-- Environment of one `BaseCrawler.crawl` run: the `fetch` outcome, the
`parse` behavior (a parse may itself raise), and what the self-heal AI call
plus JSON decode would yield. -/
structure CrawlEnv where
  fetch : Except String String
  parse : String → Except String (List CrawlResult)
  healConfig : Except String CrawlerConfig

/-- `_attempt_self_heal`: refetch, ask the model for selector JSON, return
the new config on success and `None` on any failure (the body is the
`healConfig` outcome; a fetch failure also lands in the `none` branch). -/
def attempt_self_heal (env : CrawlEnv) : Option CrawlerConfig :=
  match env.fetch with
  | .error _ => none
  | .ok _ =>
    match env.healConfig with
    | .ok cfg => some cfg
    | .error _ => none

/-- `BaseCrawler.crawl`: fetch then parse; on an exception `e`, self-heal is
attempted only when `"parse" in str(e).lower()` or `parse("")` returns an
empty list (an exception inside that very check propagates instead), and the
original exception is re-raised regardless.  Returns the crawl outcome and
the number of self-heal attempts made. -/
def crawlRun (env : CrawlEnv) : Except String (List CrawlResult) × Nat :=
  match env.fetch with
  | .ok body =>
    match env.parse body with
    | .ok results => (.ok results, 0)
    | .error e =>
      if containsSub "parse".data (e.data.map Char.toLower) then
        (.error e, 1)
      else
        match env.parse "" with
        | .ok l => if l.isEmpty then (.error e, 1) else (.error e, 0)
        | .error e2 => (.error e2, 0)
  | .error e =>
    if containsSub "parse".data (e.data.map Char.toLower) then
      (.error e, 1)
    else
      match env.parse "" with
      | .ok l => if l.isEmpty then (.error e, 1) else (.error e, 0)
      | .error e2 => (.error e2, 0)

/-! ## Data model (`src/core/models.py`) -/

inductive SourceStatus
  | active
  | inactive
  | error
  | pending
deriving DecidableEq, Repr

inductive JobStatus
  | pending
  | running
  | completed
  | failed
  | cancelled
deriving DecidableEq, Repr

inductive ContentStatus
  | new
  | processed
  | notified
  | archived
deriving DecidableEq, Repr

/-- The `Source` row fields touched by the scheduler tasks.  Timestamps are
`Nat` instants; the selector config maps are left as opaque JSON strings. -/
structure Source where
  id : String
  source_type : String
  status : SourceStatus
  crawl_interval_minutes : Nat
  last_crawled_at : Option Nat
  last_success_at : Option Nat
  error_count : Nat
  last_error : Option String
  ai_generated_config : Option String
  config_version : Nat
deriving DecidableEq, Repr

/-- The `JobExecution` row fields written by `_crawl_source_async`. -/
structure JobExecution where
  job_type : String
  status : JobStatus
  started_at : Option Nat
  finished_at : Option Nat
  items_collected : Nat
  items_saved : Nat
  error_message : Option String
deriving DecidableEq, Repr

/-- The `Content` row fields touched by the notification tasks. -/
structure Content where
  id : String
  status : ContentStatus
  importance_score : Option ℚ
  notified_at : Option Nat
deriving DecidableEq, Repr

/-! ## Scheduler tasks (`src/scheduler/tasks.py`)

The database session (`get_db_context`, not under `src/`) is modelled from
the spec as state that persists the mutations the task makes: the store is
the set of stored content hashes (a list), and the duplicate check inside
one batch sees rows added earlier in the same batch (the session flushes
pending inserts before each `select`). -/

/-- The save loop of `_crawl_source_async`: for each result, skip it when
its `content_hash` is already stored, otherwise insert it and count it as
saved. -/
def saveResults (h : String → String) (store : List String)
    (results : List CrawlResult) : List String × Nat :=
  results.foldl
    (fun acc r =>
      if content_hash h r ∈ acc.1 then acc
      else (acc.1 ++ [content_hash h r], acc.2 + 1))
    (store, 0)

/-- Post-state of one `_crawl_source_async` run, given the crawl outcome. -/
structure CrawlTaskState where
  source : Source
  store : List String
  job : JobExecution
deriving Repr

/-- `_crawl_source_async` after the job row is opened: on crawl success run
the save loop, stamp the source (`last_crawled_at = last_success_at = now`,
`error_count = 0`, `status = active`) and close the job as completed with
its counters; on a crawl exception increment `error_count`, record
`last_error`, escalate to `status = error` at `error_count ≥ 3`, and close
the job as failed.  Neither branch touches `ai_generated_config` or
`config_version`. -/
def crawlSourceAsync (h : String → String) (s : Source) (store : List String)
    (outcome : Except String (List CrawlResult)) (now : Nat) : CrawlTaskState :=
  let job0 : JobExecution :=
    { job_type := "crawl", status := .running, started_at := some now,
      finished_at := none, items_collected := 0, items_saved := 0,
      error_message := none }
  match outcome with
  | .ok results =>
    let saved := saveResults h store results
    { source := { s with last_crawled_at := some now, last_success_at := some now,
                         error_count := 0, status := .active },
      store := saved.1,
      job := { job0 with status := .completed, finished_at := some now,
                         items_collected := results.length, items_saved := saved.2 } }
  | .error e =>
    { source := { s with error_count := s.error_count + 1, last_error := some e,
                         status := if 3 ≤ s.error_count + 1 then .error else s.status },
      store := store,
      job := { job0 with status := .failed, finished_at := some now,
                         error_message := some e } }

/-- The selection of `_crawl_all_sources_async`: every source with
`status == ACTIVE`, optionally restricted to the given source types; each
selected source is dispatched.  No other condition is checked. -/
def crawlAllSelect (sources : List Source) (types : Option (List String)) :
    List Source :=
  match types with
  | none => sources.filter (fun s => s.status = SourceStatus.active)
  | some ts => sources.filter (fun s => s.status = SourceStatus.active ∧ s.source_type ∈ ts)

/-- `_send_notifications_async` on a found content row: notify, then set
`status = NOTIFIED` and `notified_at = now` — with no check of the current
status. -/
def sendNotificationsUpdate (c : Content) (now : Nat) : Content :=
  { c with status := .notified, notified_at := some now }

/-- The selection of `_send_pending_notifications_async`: up to 50 contents
with `status == PROCESSED` and `importance_score >= 0.7` (a SQL comparison,
so a NULL score never qualifies). -/
def selectPendingNotifications (cs : List Content) : List Content :=
  (cs.filter (fun c =>
    c.status = ContentStatus.processed &&
      match c.importance_score with
      | some q => decide ((7 : ℚ)/10 ≤ q)
      | none => false)).take 50

/-! ## Enrichment processor (`src/processors/ai_processor.py`) -/

/-- The normalized analysis dict (`entities` kept as a generic key→list
map). -/
structure EnrichmentResult where
  summary : Option String
  categories : List String
  entities : List (String × List String)
  sentiment : String
  relevance_score : ℚ
  importance_score : ℚ
  key_topics : List String
deriving DecidableEq, Repr

/-- `_get_default_result`. -/
def get_default_result : EnrichmentResult :=
  { summary := none, categories := [], entities := [], sentiment := "neutral",
    relevance_score := (1 : ℚ)/2, importance_score := (1 : ℚ)/2, key_topics := [] }

/-- A decoded JSON analysis object: each expected field present or absent. -/
structure RawAnalysis where
  summary : Option String
  categories : Option (List String)
  entities : Option (List (String × List String))
  sentiment : Option String
  relevance_score : Option ℚ
  importance_score : Option ℚ
  key_topics : Option (List String)
deriving DecidableEq, Repr

/-- `_validate_result`: fill defaults and clamp both scores into [0,1] via
`min(1.0, max(0.0, .))`. -/
def validate_result (r : RawAnalysis) : EnrichmentResult :=
  { summary := some (r.summary.getD ""),
    categories := r.categories.getD [],
    entities := r.entities.getD [],
    sentiment := r.sentiment.getD "neutral",
    relevance_score := min 1 (max 0 (r.relevance_score.getD ((1 : ℚ)/2))),
    importance_score := min 1 (max 0 (r.importance_score.getD ((1 : ℚ)/2))),
    key_topics := r.key_topics.getD [] }

/-- Environment of one `process` call: the orchestrator outcome (content
string, or the exception — e.g. `RuntimeError("All AI providers failed…")`),
the JSON decoder (`json.loads` read into `RawAnalysis`, `none` on
`JSONDecodeError`), and the `re.search(r'\{.*\}', …)` extraction of a
brace-delimited substring (`none` when no match). -/
structure AnalyzeEnv where
  request : Except String String
  decodeJson : String → Option RawAnalysis
  extractBraces : String → Option String

/-- `_analyze_content`: request, decode; on a decode failure try the
brace-extracted substring once; re-raise when that also fails. -/
def analyze_content (env : AnalyzeEnv) : Except String EnrichmentResult :=
  match env.request with
  | .error e => .error e
  | .ok content =>
    match env.decodeJson content with
    | some r => .ok (validate_result r)
    | none =>
      match env.extractBraces content with
      | some sub =>
        match env.decodeJson sub with
        | some r => .ok (validate_result r)
        | none => .error "JSONDecodeError"
      | none => .error "JSONDecodeError"

/-- `AIContentProcessor.process`: any exception from the analysis is caught
and replaced by the default-neutral result; the function is total, so no
error reaches the caller. -/
def process (env : AnalyzeEnv) : EnrichmentResult :=
  match analyze_content env with
  | .ok r => r
  | .error _ => get_default_result

/-! ## Derived notions used to state the matcher theorems -/

/-- The deduplication key of the `(group, canonical)` pair itself. -/
def keyStr (g c : String) : String := g ++ ":" ++ c

/-- The `MatchResult` built by the exact pass for a taxonomy triple. -/
def mkExactRes (p : String × String × List String) : MatchResult :=
  { keyword := p.2.1, keyword_group := p.1, match_type := "exact",
    score := 1, matched_text := some p.2.1 }

/-- The `MatchResult` built by the synonym pass for a synonym-lookup
entry. -/
def mkSynRes (e : String × (String × String)) : MatchResult :=
  { keyword := e.2.2, keyword_group := e.2.1, match_type := "synonym",
    score := (9 : ℚ)/10, matched_text := some e.1 }

/-- The exact pass's results under globally distinct lowercased
canonicals: one per taxonomy pair whose canonical occurs whole-word. -/
def exactResults (tm : TextModel) (T : Taxonomy) (tl : List Char) : List MatchResult :=
  ((taxPairs T).filter (fun p => canonOccurs tm p.2.1 tl)).map mkExactRes

/-- The synonym pass's results under globally distinct lowercased synonyms:
one per synonym entry occurring whole-word. -/
def synResults (tm : TextModel) (T : Taxonomy) (tl : List Char) : List MatchResult :=
  ((synEntries tm T).filter (fun e => occursWholeWord tm e.1.data tl)).map mkSynRes

/-- Whether a result reports the `(group, canonical)` pair `(g, c)`. -/
def isPairRes (g c : String) (r : MatchResult) : Bool :=
  decide (r.keyword_group = g ∧ r.keyword = c)

/-- Invariant of the `seen` dict while the dedup loop has consumed
`processed`: keys are unique, each entry is keyed by its result's key, holds
a processed result of maximal score for that key, and every processed key is
present. -/
def seenInv (processed : List MatchResult) (seen : List (String × MatchResult)) : Prop :=
  (seen.map Prod.fst).Nodup ∧
  (∀ kv ∈ seen, kv.1 = resKey kv.2 ∧ kv.2 ∈ processed ∧
    ∀ q ∈ processed, resKey q = kv.1 → q.score ≤ kv.2.score) ∧
  (∀ q ∈ processed, resKey q ∈ seen.map Prod.fst)

/-! ## Concrete inputs for witnesses and counterexamples -/

/-- Spec scenario 3's taxonomy:
`{"Vendors": {"OpenAI": ["오픈AI","Open AI"]}, "Hardware": {"NVIDIA": []}}`. -/
def vendorTaxonomy : Taxonomy :=
  [("Vendors", [("OpenAI", ["오픈AI", "Open AI"])]), ("Hardware", [("NVIDIA", [])])]

/-- A taxonomy in which two groups define the same canonical keyword up to
case. -/
def shadowTaxonomy : Taxonomy :=
  [("G1", [("ai", [])]), ("G2", [("AI", [])])]

/-- A taxonomy in which the first group's canonical (`AI`) is shadowed in
the exact table by the second group's case-colliding canonical (`ai`),
while the first keyword's synonym entry survives in the synonym table. -/
def rescueTaxonomy : Taxonomy :=
  [("G1", [("AI", ["artificial intelligence"])]), ("G2", [("ai", [])])]

/-- An attempt function whose every attempt receives an HTTP 404 response,
so `raise_for_status` raises `HTTPStatusError`. -/
def att404 : Nat → Except String String :=
  fun _ => Except.error "Client error 404 Not Found"

/-- A source that was crawled at instant 100 with a 60-minute interval. -/
def freshSource : Source :=
  { id := "s1", source_type := "rss", status := .active,
    crawl_interval_minutes := 60, last_crawled_at := some 100,
    last_success_at := some 100, error_count := 0, last_error := none,
    ai_generated_config := none, config_version := 1 }

/-- A source that has already failed twice. -/
def twiceFailedSource : Source :=
  { id := "s2", source_type := "web", status := .active,
    crawl_interval_minutes := 60, last_crawled_at := none,
    last_success_at := none, error_count := 2, last_error := none,
    ai_generated_config := none, config_version := 1 }

/-- A content row still in status `new`. -/
def newContent : Content :=
  { id := "c1", status := .new, importance_score := none, notified_at := none }

/-- A processed, important content row. -/
def processedContent : Content :=
  { id := "c2", status := .processed, importance_score := some 1, notified_at := none }

/-- A crawl result used by the dedup witnesses. -/
def sampleResult : CrawlResult :=
  { url := "https://example.org/a", title := "t", content := some "body",
    published_at := none }

/-- A crawl whose fetch succeeds and whose parse returns zero results
without raising. -/
def emptyParseEnv : CrawlEnv :=
  { fetch := .ok "<html><body></body></html>",
    parse := fun _ => .ok [],
    healConfig := .ok { list_selector := some "article.item",
                        title_selector := some "h2", link_selector := some "a",
                        date_selector := some "time", content_selector := some "p" } }

/-- An analysis environment in which every provider failed. -/
def failedAnalyzeEnv : AnalyzeEnv :=
  { request := .error "All AI providers failed. Last error: boom",
    decodeJson := fun _ => none,
    extractBraces := fun _ => none }

/-- An orchestrator with all providers configured, whose `anthropic` client
raises a network error and whose `openai` client answers `"ok"`. -/
def fallbackOrchestrator : Orchestrator :=
  { available := fun _ => true,
    behavior := fun p =>
      match p with
      | .anthropic => .failure "network error"
      | .openai => .success { content := "ok", provider := .openai, model := "gpt-4-turbo-preview" }
      | _ => .success { content := "unused", provider := p, model := "m" } }

/-! # Theorems -/

/-! ## C2 — orchestrator fallback -/

theorem tryProviders_first_success (behavior : AIProvider → ProviderOutcome)
    (r : AIResponse) :
    ∀ (l1 : List AIProvider) (p : AIProvider) (l2 : List AIProvider) (last : Option String),
      (∀ q ∈ l1, (behavior q).failed = true) → behavior p = .success r →
      tryProviders behavior (l1 ++ p :: l2) last = (.ok r, l1 ++ [p]) := by
  intro l1
  induction l1 with
  | nil =>
    intro p l2 last _ hp
    simp [tryProviders, hp]
  | cons a l1 ih =>
    intro p l2 last hfail hp
    have ha : (behavior a).failed = true := hfail a (by simp)
    have hrest := ih p l2 (outcomeError a (behavior a))
      (fun q hq => hfail q (by simp [hq])) hp
    cases hb : behavior a with
    | success s => rw [hb] at ha; simp [ProviderOutcome.failed] at ha
    | failure e =>
      rw [hb] at hrest
      simp only [List.cons_append, tryProviders, hb, List.append_eq, hrest]
    | timeout =>
      rw [hb] at hrest
      simp only [List.cons_append, tryProviders, hb, List.append_eq, hrest]

theorem tryProviders_all_fail (behavior : AIProvider → ProviderOutcome) :
    ∀ (ps : List AIProvider) (last : Option String) (hne : ps ≠ []),
      (∀ q ∈ ps, (behavior q).failed = true) →
      tryProviders behavior ps last =
        (.error (.allProvidersFailed
          (outcomeError (ps.getLast hne) (behavior (ps.getLast hne)))), ps) := by
  intro ps
  induction ps with
  | nil => intro last hne; exact absurd rfl hne
  | cons a ps ih =>
    intro last hne hfail
    have ha : (behavior a).failed = true := hfail a (by simp)
    cases ps with
    | nil =>
      cases hb : behavior a with
      | success s => rw [hb] at ha; simp [ProviderOutcome.failed] at ha
      | failure e => simp [tryProviders, hb]
      | timeout => simp [tryProviders, hb]
    | cons b ps2 =>
      have hne2 : b :: ps2 ≠ [] := by simp
      have hrest := ih (outcomeError a (behavior a)) hne2
        (fun q hq => hfail q (by simp [hq]))
      have hlast : (a :: b :: ps2).getLast hne = (b :: ps2).getLast hne2 :=
        List.getLast_cons hne2
      cases hb : behavior a with
      | success s => rw [hb] at ha; simp [ProviderOutcome.failed] at ha
      | failure e =>
        rw [hb] at hrest
        have hstep : tryProviders behavior (a :: b :: ps2) last =
            ((tryProviders behavior (b :: ps2) (outcomeError a (ProviderOutcome.failure e))).1,
              a :: (tryProviders behavior (b :: ps2) (outcomeError a (ProviderOutcome.failure e))).2) := by
          simp [tryProviders, hb]
        rw [hstep, hrest, hlast]
      | timeout =>
        rw [hb] at hrest
        have hstep : tryProviders behavior (a :: b :: ps2) last =
            ((tryProviders behavior (b :: ps2) (outcomeError a ProviderOutcome.timeout)).1,
              a :: (tryProviders behavior (b :: ps2) (outcomeError a ProviderOutcome.timeout)).2) := by
          simp [tryProviders, hb]
        rw [hstep, hrest, hlast]

/-- C2: `request` tries the task's provider order restricted to available
providers, in order; the first provider whose `complete` succeeds within the
timeout determines the returned response and later providers are not
invoked; earlier failures only advance the loop; when every tried provider
fails or times out, the call raises the all-providers-failed error carrying
the last provider's error. -/
theorem c2_request_fallback (o : Orchestrator) (task : AITaskType) :
    (o.selectProviders task none = (TASK_PROVIDER_MAP task).filter o.available) ∧
    (∀ (l1 : List AIProvider) (p : AIProvider) (l2 : List AIProvider) (r : AIResponse),
      o.get_providers_for_task task = l1 ++ p :: l2 →
      (∀ q ∈ l1, (o.behavior q).failed = true) →
      o.behavior p = .success r →
      o.request task none = (.ok r, l1 ++ [p])) ∧
    (∀ (hne : o.get_providers_for_task task ≠ []),
      (∀ q ∈ o.get_providers_for_task task, (o.behavior q).failed = true) →
      o.request task none =
        (.error (.allProvidersFailed
          (outcomeError ((o.get_providers_for_task task).getLast hne)
            (o.behavior ((o.get_providers_for_task task).getLast hne)))),
         o.get_providers_for_task task)) := by
  refine ⟨rfl, ?_, ?_⟩
  · intro l1 p l2 r hsel hfail hp
    have hne : ¬ (o.get_providers_for_task task).isEmpty = true := by
      rw [hsel]; simp
    unfold Orchestrator.request
    simp only [Orchestrator.selectProviders, hne, if_false, Bool.false_eq_true]
    rw [hsel]
    exact tryProviders_first_success o.behavior r l1 p l2 none hfail hp
  · intro hne hfail
    have hne2 : ¬ (o.get_providers_for_task task).isEmpty = true := by
      simpa [List.isEmpty_iff] using hne
    unfold Orchestrator.request
    simp only [Orchestrator.selectProviders, hne2, if_false, Bool.false_eq_true]
    exact tryProviders_all_fail o.behavior _ none hne hfail

/-- C2 witness: task `analyze` routes to `[anthropic, openai, google]`;
anthropic raises, openai answers `"ok"`; `request` returns openai's
response, and google is not invoked. -/
theorem c2_request_fallback_witness :
    fallbackOrchestrator.request .analyze none =
      (.ok { content := "ok", provider := .openai, model := "gpt-4-turbo-preview" },
       [.anthropic, .openai]) :=
  (c2_request_fallback fallbackOrchestrator .analyze).2.1
    [.anthropic] .openai [.google]
    { content := "ok", provider := .openai, model := "gpt-4-turbo-preview" }
    (by decide) (by decide) rfl

/-! ## C3 — self-heal trigger and persistence -/

/-- C3 (evaluating the code at the failing input): when fetch succeeds and
parsing returns **zero** results without raising, `crawl` returns the empty
list and performs **no** self-heal attempt; and no path of
`_crawl_source_async` writes `ai_generated_config` or bumps
`config_version`, so a model-produced selector config is never persisted. -/
theorem c3_self_heal_not_triggered_nor_persisted :
    (∀ (env : CrawlEnv) (body : String), env.fetch = .ok body →
      env.parse body = .ok [] → crawlRun env = (.ok [], 0)) ∧
    (∀ (h : String → String) (s : Source) (store : List String)
        (outcome : Except String (List CrawlResult)) (now : Nat),
      (crawlSourceAsync h s store outcome now).source.ai_generated_config =
        s.ai_generated_config ∧
      (crawlSourceAsync h s store outcome now).source.config_version =
        s.config_version) := by
  constructor
  · intro env body hf hp
    simp [crawlRun, hf, hp]
  · intro h s store outcome now
    cases outcome <;> simp [crawlSourceAsync]

/-- C3 witness: a selector-based source whose page parses to zero items:
the crawl returns empty with zero self-heal attempts, and the subsequent
task run leaves the source's AI config and version untouched. -/
theorem c3_self_heal_witness :
    crawlRun emptyParseEnv = (.ok [], 0) ∧
    (crawlSourceAsync id freshSource [] (.ok []) 160).source.ai_generated_config =
      freshSource.ai_generated_config ∧
    (crawlSourceAsync id freshSource [] (.ok []) 160).source.config_version =
      freshSource.config_version :=
  ⟨c3_self_heal_not_triggered_nor_persisted.1 emptyParseEnv
      "<html><body></body></html>" rfl rfl,
   c3_self_heal_not_triggered_nor_persisted.2 id freshSource [] (.ok []) 160⟩

/-! ## C4 — dedup on content hash and saved ≤ collected -/

theorem save_foldl_le (h : String → String) :
    ∀ (rs : List CrawlResult) (acc : List String × Nat),
      (rs.foldl
        (fun acc r =>
          if content_hash h r ∈ acc.1 then acc
          else (acc.1 ++ [content_hash h r], acc.2 + 1)) acc).2 ≤ acc.2 + rs.length := by
  intro rs
  induction rs with
  | nil => intro acc; simp
  | cons r rs ih =>
    intro acc
    rw [List.foldl_cons]
    by_cases hm : content_hash h r ∈ acc.1
    · simp only [hm, if_pos]
      calc _ ≤ acc.2 + rs.length := ih acc
        _ ≤ acc.2 + (r :: rs).length := by simp
    · simp only [hm, if_neg, not_false_iff]
      calc _ ≤ (acc.2 + 1) + rs.length := ih _
        _ ≤ acc.2 + (r :: rs).length := by simp [List.length_cons]; omega

theorem save_foldl_skip (h : String → String) :
    ∀ (rs : List CrawlResult) (acc : List String × Nat),
      (∀ r ∈ rs, content_hash h r ∈ acc.1) →
      rs.foldl
        (fun acc r =>
          if content_hash h r ∈ acc.1 then acc
          else (acc.1 ++ [content_hash h r], acc.2 + 1)) acc = acc := by
  intro rs
  induction rs with
  | nil => intro acc _; simp
  | cons r rs ih =>
    intro acc hmem
    rw [List.foldl_cons]
    rw [if_pos (hmem r (by simp))]
    exact ih acc (fun q hq => hmem q (by simp [hq]))

/-- C4: the save loop stores a result only when its content hash (a function
of `url ‖ title ‖ (body or "")`) is absent, so `n ≥ 1` identical items add
exactly one row; and every closed `JobExecution` (either branch of
`_crawl_source_async`) satisfies `items_saved ≤ items_collected`. -/
theorem c4_dedup_and_counters (h : String → String) :
    (∀ (store : List String) (r : CrawlResult) (n : Nat), 1 ≤ n →
      content_hash h r ∉ store →
      saveResults h store (List.replicate n r) = (store ++ [content_hash h r], 1)) ∧
    (∀ (s : Source) (store : List String) (outcome : Except String (List CrawlResult))
        (now : Nat),
      (crawlSourceAsync h s store outcome now).job.items_saved ≤
        (crawlSourceAsync h s store outcome now).job.items_collected) := by
  constructor
  · intro store r n hn hmem
    cases n with
    | zero => omega
    | succ m =>
      rw [List.replicate_succ]
      unfold saveResults
      rw [List.foldl_cons, if_neg hmem]
      exact save_foldl_skip h (List.replicate m r) (store ++ [content_hash h r], 1)
        (fun q hq => by
          rw [List.eq_of_mem_replicate hq]
          simp)
  · intro s store outcome now
    cases outcome with
    | error e => simp [crawlSourceAsync]
    | ok results =>
      simp only [crawlSourceAsync]
      have := save_foldl_le h results (store, 0)
      simpa [saveResults] using this

/-- C4 witness: three identical crawl results over an empty store produce
exactly one stored row, and a concrete run's job satisfies
`items_saved ≤ items_collected`. -/
theorem c4_dedup_witness :
    saveResults id [] (List.replicate 3 sampleResult) =
      ([content_hash id sampleResult], 1) ∧
    (crawlSourceAsync id freshSource [] (.ok (List.replicate 3 sampleResult)) 160).job.items_saved ≤
      (crawlSourceAsync id freshSource [] (.ok (List.replicate 3 sampleResult)) 160).job.items_collected :=
  ⟨by
    have := (c4_dedup_and_counters id).1 [] sampleResult 3 (by decide) (by simp)
    simpa using this,
   (c4_dedup_and_counters id).2 freshSource [] (.ok (List.replicate 3 sampleResult)) 160⟩

/-! ## C5 — per-source error accounting -/

/-- C5: every `_crawl_source_async` run re-establishes the error invariant
`error_count ≥ 3 → status = error`; on failure it increments `error_count`,
records `last_error` and escalates to `status = error` once the count
reaches 3; on success it resets `error_count` to 0, sets `status = active`
and stamps `last_crawled_at` and `last_success_at` with now. -/
theorem c5_source_error_invariant (h : String → String) (s : Source)
    (store : List String) (outcome : Except String (List CrawlResult)) (now : Nat) :
    (3 ≤ (crawlSourceAsync h s store outcome now).source.error_count →
      (crawlSourceAsync h s store outcome now).source.status = SourceStatus.error) ∧
    (∀ e, outcome = Except.error e →
      (crawlSourceAsync h s store outcome now).source.error_count = s.error_count + 1 ∧
      (crawlSourceAsync h s store outcome now).source.last_error = some e ∧
      (3 ≤ s.error_count + 1 →
        (crawlSourceAsync h s store outcome now).source.status = SourceStatus.error)) ∧
    (∀ rs, outcome = Except.ok rs →
      (crawlSourceAsync h s store outcome now).source.error_count = 0 ∧
      (crawlSourceAsync h s store outcome now).source.status = SourceStatus.active ∧
      (crawlSourceAsync h s store outcome now).source.last_crawled_at = some now ∧
      (crawlSourceAsync h s store outcome now).source.last_success_at = some now) := by
  refine ⟨?_, ?_, ?_⟩
  · intro hge
    cases outcome with
    | ok rs => simp [crawlSourceAsync] at hge
    | error e =>
      simp only [crawlSourceAsync] at hge ⊢
      split
      · rfl
      · next hlt =>
        exfalso
        simp at hge
        omega
  · intro e he
    subst he
    refine ⟨by simp [crawlSourceAsync], by simp [crawlSourceAsync], ?_⟩
    intro hge
    simp only [crawlSourceAsync]
    split
    · rfl
    · next hlt => exact absurd hge hlt
  · intro rs hrs
    subst hrs
    simp [crawlSourceAsync]

/-- C5 witness: a source with two prior failures fails again — the count
becomes 3 and the status becomes error; a fresh success resets the count
and reactivates. -/
theorem c5_source_error_witness :
    (crawlSourceAsync id twiceFailedSource [] (Except.error "Server error 500") 7).source.error_count =
      twiceFailedSource.error_count + 1 ∧
    (crawlSourceAsync id twiceFailedSource [] (Except.error "Server error 500") 7).source.status =
      SourceStatus.error ∧
    (crawlSourceAsync id freshSource [] (Except.ok []) 160).source.error_count = 0 ∧
    (crawlSourceAsync id freshSource [] (Except.ok []) 160).source.status =
      SourceStatus.active := by
  have hf := (c5_source_error_invariant id twiceFailedSource [] (Except.error "Server error 500") 7).2.1
    "Server error 500" rfl
  have hs := (c5_source_error_invariant id freshSource [] (Except.ok []) 160).2.2 [] rfl
  exact ⟨hf.1, hf.2.2 (by decide), hs.1, hs.2.1⟩

/-! ## C6 — enrichment degrades to the default-neutral result -/

/-- C6: whenever the analysis fails — in particular when the orchestrator
call raises (all providers failed), or the response is not JSON and no
brace-delimited object can be extracted — `process` returns exactly the
default-neutral result; `process` is a total function into
`EnrichmentResult`, so no error ever propagates to the caller. -/
theorem c6_process_default_neutral :
    (∀ (env : AnalyzeEnv) (e : String), analyze_content env = Except.error e →
      process env =
        { summary := none, categories := [], entities := [], sentiment := "neutral",
          relevance_score := (1 : ℚ)/2, importance_score := (1 : ℚ)/2, key_topics := [] }) ∧
    (∀ (env : AnalyzeEnv) (e : String), env.request = Except.error e →
      analyze_content env = Except.error e) ∧
    (∀ (env : AnalyzeEnv) (c : String), env.request = Except.ok c →
      env.decodeJson c = none → env.extractBraces c = none →
      analyze_content env = Except.error "JSONDecodeError") := by
  refine ⟨?_, ?_, ?_⟩
  · intro env e he
    simp [process, he, get_default_result]
  · intro env e he
    simp [analyze_content, he]
  · intro env c hc hd hx
    simp [analyze_content, hc, hd, hx]

/-- C6 witness: with every provider failed, `process` yields the
default-neutral record. -/
theorem c6_process_default_neutral_witness :
    process failedAnalyzeEnv =
      { summary := none, categories := [], entities := [], sentiment := "neutral",
        relevance_score := (1 : ℚ)/2, importance_score := (1 : ℚ)/2, key_topics := [] } :=
  c6_process_default_neutral.1 failedAnalyzeEnv
    "All AI providers failed. Last error: boom"
    (c6_process_default_neutral.2.1 failedAnalyzeEnv
      "All AI providers failed. Last error: boom" rfl)

/-! ## C7 — fetch retry policy -/

theorem runFetchAux_all_fail (att : Nat → Except String String) (er : Nat → String) :
    ∀ (fuel i : Nat), 0 < fuel →
      (∀ k, k < fuel → att (i + k) = Except.error (er (i + k))) →
      runFetchAux att fuel i =
        (Except.error ("RetryError: " ++ er (i + fuel - 1)), i + fuel) := by
  intro fuel
  induction fuel with
  | zero => intro i h; omega
  | succ f ih =>
    intro i _ herr
    have h0 : att i = Except.error (er i) := by
      have := herr 0 (by omega)
      simpa using this
    cases f with
    | zero =>
      simp [runFetchAux, h0]
    | succ f2 =>
      have hrec := ih (i + 1) (by omega) (fun k hk => by
        have := herr (k + 1) (by omega)
        have harith : i + (k + 1) = i + 1 + k := by omega
        rwa [harith] at this)
      rw [runFetchAux, h0]
      simp only [Nat.succ_ne_zero, if_false]
      rw [hrec]
      have h1 : i + 1 + (f2 + 1) - 1 = i + (f2 + 1 + 1) - 1 := by omega
      have h2 : i + 1 + (f2 + 1) = i + (f2 + 1 + 1) := by omega
      rw [h1, h2]

theorem runFetchAux_first_success (att : Nat → Except String String) (b : String) :
    ∀ (j fuel i : Nat), j < fuel →
      (∀ k, k < j → ∃ e, att (i + k) = Except.error e) →
      att (i + j) = Except.ok b →
      runFetchAux att fuel i = (Except.ok b, i + j + 1) := by
  intro j
  induction j with
  | zero =>
    intro fuel i hj _ hok
    cases fuel with
    | zero => omega
    | succ f =>
      simp only [Nat.add_zero] at hok
      simp [runFetchAux, hok]
  | succ j ih =>
    intro fuel i hj herr hok
    obtain ⟨e0, he0⟩ := herr 0 (by omega)
    simp only [Nat.add_zero] at he0
    cases fuel with
    | zero => omega
    | succ f =>
      have hf : f ≠ 0 := by omega
      have hrec := ih f (i + 1) (by omega)
        (fun k hk => by
          obtain ⟨e2, he2⟩ := herr (k + 1) (by omega)
          exact ⟨e2, by rwa [show i + (k + 1) = i + 1 + k by omega] at he2⟩)
        (by rwa [show i + (j + 1) = i + 1 + j by omega] at hok)
      rw [runFetchAux, he0]
      simp only [hf, if_false]
      rw [hrec]
      have h2 : i + 1 + j + 1 = i + (j + 1) + 1 := by omega
      rw [h2]

/-- C7 counterexample to the claim as stated: a fetch whose every attempt
receives HTTP 404 (a 4xx other than 429) is retried like any other failure —
with the default `crawler_max_retries = 3` the code performs 3 attempts, not
the single attempt the claim requires. -/
theorem c7_404_retried_counterexample :
    (runFetch att404 crawler_max_retries).2 = 3 ∧
    ¬(runFetch att404 crawler_max_retries).2 = 1 := by
  constructor
  · rfl
  · intro h
    simp [runFetch, runFetchAux, att404, crawler_max_retries] at h

/-- C7 amended: the tenacity wrapper on `fetch` has no retry predicate, so
*every* failing attempt — transport errors and every non-2xx response,
4xx included — is retried alike: the call returns the first success within
`crawler_max_retries` attempts, and otherwise performs exactly
`crawler_max_retries` attempts and fails with a retry error wrapping the
last attempt's failure. -/
theorem c7_fetch_retries_every_failure (att : Nat → Except String String)
    (maxAttempts : Nat) :
    (∀ (j : Nat) (b : String), j < maxAttempts →
      (∀ k, k < j → ∃ e, att k = Except.error e) →
      att j = Except.ok b →
      runFetch att maxAttempts = (Except.ok b, j + 1)) ∧
    (∀ (er : Nat → String), 0 < maxAttempts →
      (∀ k, k < maxAttempts → att k = Except.error (er k)) →
      runFetch att maxAttempts =
        (Except.error ("RetryError: " ++ er (maxAttempts - 1)), maxAttempts)) := by
  constructor
  · intro j b hj herr hok
    have := runFetchAux_first_success att b j maxAttempts 0 hj
      (fun k hk => by simpa using herr k hk) (by simpa using hok)
    simpa [runFetch] using this
  · intro er hpos herr
    have := runFetchAux_all_fail att er maxAttempts 0 hpos
      (fun k hk => by simpa using herr k hk)
    simpa [runFetch] using this

/-- C7 witness: all three attempts receive 404; fetch fails after exactly
`crawler_max_retries = 3` attempts with a retry error wrapping the 404. -/
theorem c7_fetch_retries_witness :
    runFetch att404 crawler_max_retries =
      (Except.error ("RetryError: " ++ "Client error 404 Not Found"), 3) :=
  (c7_fetch_retries_every_failure att404 crawler_max_retries).2
    (fun _ => "Client error 404 Not Found") (by decide) (fun k _ => rfl)

/-! ## C8 — notification status transition -/

/-- C8 counterexample to the claim as stated: `_send_notifications_async`
on a content row still in status `new` is not a no-op — it sets the status
straight to `notified`, skipping `processed`. -/
theorem c8_notify_new_counterexample :
    newContent.status = ContentStatus.new ∧
    ContentStatus.new ≠ ContentStatus.processed ∧
    (sendNotificationsUpdate newContent 5).status = ContentStatus.notified ∧
    ¬(sendNotificationsUpdate newContent 5).status = newContent.status := by
  refine ⟨rfl, by decide, rfl, by decide⟩

/-- C8 amended: the notify operation sets `status = notified` and stamps
`notified_at` unconditionally, never observing the current status; the
`new → processed → notified` order is enforced only by the batch dispatcher,
which selects at most 50 rows, all with `status = processed` and
`importance_score ≥ 0.7`. -/
theorem c8_notify_unconditional :
    (∀ (c : Content) (now : Nat),
      (sendNotificationsUpdate c now).status = ContentStatus.notified ∧
      (sendNotificationsUpdate c now).notified_at = some now ∧
      (sendNotificationsUpdate c now).id = c.id ∧
      (sendNotificationsUpdate c now).importance_score = c.importance_score) ∧
    (∀ (cs : List Content) (c : Content), c ∈ selectPendingNotifications cs →
      c ∈ cs ∧ c.status = ContentStatus.processed ∧
      ∃ q, c.importance_score = some q ∧ (7 : ℚ)/10 ≤ q) ∧
    (∀ cs : List Content, (selectPendingNotifications cs).length ≤ 50) := by
  refine ⟨fun c now => ⟨rfl, rfl, rfl, rfl⟩, ?_, ?_⟩
  · intro cs c hc
    have hf : c ∈ cs.filter (fun c =>
        c.status = ContentStatus.processed &&
          match c.importance_score with
          | some q => decide ((7 : ℚ)/10 ≤ q)
          | none => false) := List.mem_of_mem_take hc
    rw [List.mem_filter] at hf
    refine ⟨hf.1, ?_, ?_⟩
    · have := hf.2
      cases hs : c.importance_score <;> rw [hs] at this <;>
        simp_all
    · have := hf.2
      cases hs : c.importance_score with
      | none => rw [hs] at this; simp_all
      | some q =>
        rw [hs] at this
        simp only [Bool.and_eq_true, decide_eq_true_eq] at this
        exact ⟨q, rfl, this.2⟩
  · intro cs
    simp only [selectPendingNotifications]
    exact List.length_take_le 50 _

/-- C8 witness: a processed, important row is selected by the batch query
and carries the guarantees; notify on it stamps `notified`. -/
theorem c8_notify_unconditional_witness :
    (processedContent.status = ContentStatus.processed ∧
      ∃ q, processedContent.importance_score = some q ∧ (7 : ℚ)/10 ≤ q) ∧
    (sendNotificationsUpdate processedContent 9).status = ContentStatus.notified := by
  have hmem : processedContent ∈ selectPendingNotifications [processedContent] := by
    simp only [selectPendingNotifications, List.filter, processedContent]
    norm_num
  have h := c8_notify_unconditional.2.1 [processedContent] processedContent hmem
  exact ⟨⟨h.2.1, h.2.2⟩, (c8_notify_unconditional.1 processedContent 9).1⟩

/-! ## C9 — crawl-all dispatch -/

/-- C9 counterexample to the claim as stated: a source crawled at this very
instant (`now − last_crawled = 0 < crawl_interval_minutes = 60`) is still
dispatched by the crawl-all selection, which never consults the interval. -/
theorem c9_interval_ignored_counterexample :
    freshSource ∈ crawlAllSelect [freshSource] none ∧
    freshSource.last_crawled_at = some 100 ∧
    freshSource.crawl_interval_minutes = 60 ∧
    100 - 100 < 60 := by
  refine ⟨?_, rfl, rfl, by omega⟩
  simp [crawlAllSelect, freshSource]

/-- C9 amended: `_crawl_all_sources_async` dispatches exactly the sources
with `status = active` (restricted to the optional type filter); membership
is independent of `last_crawled_at` and `crawl_interval_minutes` — no
interval check exists. -/
theorem c9_crawl_all_selects_active (sources : List Source)
    (types : Option (List String)) (s : Source) :
    s ∈ crawlAllSelect sources types ↔
      s ∈ sources ∧ s.status = SourceStatus.active ∧
        (∀ ts, types = some ts → s.source_type ∈ ts) := by
  cases types with
  | none => simp [crawlAllSelect, List.mem_filter]
  | some ts =>
    simp only [crawlAllSelect, List.mem_filter, decide_eq_true_eq]
    constructor
    · rintro ⟨hmem, hst, hty⟩
      exact ⟨hmem, hst, fun ts2 hts => by cases hts; exact hty⟩
    · rintro ⟨hmem, hst, hty⟩
      exact ⟨hmem, hst, hty ts rfl⟩

/-! ## Lookup-table lemmas (shared by C1 and C10) -/

theorem foldl_flatMap {α β γ : Type} (step : α → β → α) (f : γ → List β) :
    ∀ (L : List γ) (a : α),
      L.foldl (fun acc g => (f g).foldl step acc) a = (L.flatMap f).foldl step a := by
  intro L
  induction L with
  | nil => intro a; rfl
  | cons g L ih =>
    intro a
    rw [List.foldl_cons, List.flatMap_cons, List.foldl_append, ih]

theorem build_exact_lookup_eq (tm : TextModel) (T : Taxonomy) :
    build_exact_lookup tm T = buildDict (exactEntries tm T) := by
  have h2 : (fun (acc : List (String × (String × String)))
        (g : String × List (String × List String)) =>
          g.2.foldl (fun acc2 kw => dictInsert acc2 (lowerStr tm kw.1) (g.1, kw.1)) acc) =
      (fun acc g =>
        ((g.2.map (fun kw => (lowerStr tm kw.1, (g.1, kw.1)))).foldl
          (fun a e => dictInsert a e.1 e.2) acc)) := by
    funext acc g
    rw [List.foldl_map]
  unfold build_exact_lookup buildDict
  rw [h2, foldl_flatMap]
  congr 1
  unfold exactEntries taxPairs
  rw [List.map_flatMap]
  apply List.flatMap_congr
  intro g _
  rw [List.map_map]
  rfl

theorem build_synonym_lookup_eq (tm : TextModel) (T : Taxonomy) :
    build_synonym_lookup tm T = buildDict (synEntries tm T) := by
  have h1 : (fun (acc : List (String × (String × String)))
        (g : String × List (String × List String)) =>
          g.2.foldl
            (fun acc2 kw =>
              kw.2.foldl (fun acc3 syn => dictInsert acc3 (lowerStr tm syn) (g.1, kw.1)) acc2)
            acc) =
      (fun acc g =>
        ((g.2.flatMap (fun kw => kw.2.map (fun syn => (lowerStr tm syn, (g.1, kw.1))))).foldl
          (fun a e => dictInsert a e.1 e.2) acc)) := by
    funext acc g
    rw [← foldl_flatMap]
    congr 1
    funext acc2 kw
    rw [List.foldl_map]
  unfold build_synonym_lookup buildDict
  rw [h1, foldl_flatMap]
  congr 1
  unfold synEntries taxPairs
  rw [List.flatMap_assoc]
  apply List.flatMap_congr
  intro g _
  rw [List.flatMap_map]

theorem dictInsert_fresh {α : Type} (m : List (String × α)) (k : String) (v : α)
    (hk : ∀ p ∈ m, p.1 ≠ k) : dictInsert m k v = m ++ [(k, v)] := by
  unfold dictInsert
  rw [if_neg]
  simp only [List.any_eq_true, decide_eq_true_eq, not_exists]
  intro p
  rw [not_and]
  intro hp
  exact hk p hp

theorem buildDict_of_nodup_aux :
    ∀ (L acc : List (String × (String × String))),
      ((acc ++ L).map Prod.fst).Nodup →
      L.foldl (fun a e => dictInsert a e.1 e.2) acc = acc ++ L := by
  intro L
  induction L with
  | nil => intro acc _; simp
  | cons e L ih =>
    intro acc hnd
    have hk : ∀ p ∈ acc, p.1 ≠ e.1 := by
      intro p hp hpe
      rw [List.map_append, List.nodup_append] at hnd
      exact hnd.2.2 (List.mem_map_of_mem Prod.fst hp)
        (by rw [hpe]; exact List.mem_map_of_mem Prod.fst (by simp))
    rw [List.foldl_cons, dictInsert_fresh acc e.1 e.2 hk, Prod.mk.eta]
    have hres := ih (acc ++ [e]) (by
      rw [List.append_assoc]
      simpa using hnd)
    rw [hres, List.append_assoc]
    simp

theorem buildDict_of_nodup (L : List (String × (String × String)))
    (hnd : (L.map Prod.fst).Nodup) : buildDict L = L := by
  unfold buildDict
  simpa using buildDict_of_nodup_aux L [] (by simpa using hnd)

theorem filterMap_ite {α β : Type} (p : α → Bool) (f : α → β) :
    ∀ L : List α,
      L.filterMap (fun a => if p a then some (f a) else none) = (L.filter p).map f := by
  intro L
  induction L with
  | nil => rfl
  | cons a L ih =>
    by_cases h : p a <;>
      simp [List.filterMap_cons, List.filter_cons, h, ih]

theorem exact_lookup_of_nodup (tm : TextModel) (T : Taxonomy)
    (hc : ((exactEntries tm T).map Prod.fst).Nodup) :
    build_exact_lookup tm T = exactEntries tm T := by
  rw [build_exact_lookup_eq]
  exact buildDict_of_nodup _ hc

theorem synonym_lookup_of_nodup (tm : TextModel) (T : Taxonomy)
    (hs : ((synEntries tm T).map Prod.fst).Nodup) :
    build_synonym_lookup tm T = synEntries tm T := by
  rw [build_synonym_lookup_eq]
  exact buildDict_of_nodup _ hs

theorem match_exact_eq (tm : TextModel) (T : Taxonomy) (tl : List Char)
    (hc : ((exactEntries tm T).map Prod.fst).Nodup) :
    KeywordMatcher.match_exact ⟨tm, T⟩ tl = exactResults tm T tl := by
  unfold KeywordMatcher.match_exact KeywordMatcher.exact_lookup exactResults
  simp only
  rw [exact_lookup_of_nodup tm T hc]
  rw [filterMap_ite]
  unfold exactEntries
  rw [List.filter_map, List.map_map]
  rfl

theorem match_synonyms_eq (tm : TextModel) (T : Taxonomy) (tl : List Char)
    (hs : ((synEntries tm T).map Prod.fst).Nodup) :
    KeywordMatcher.match_synonyms ⟨tm, T⟩ tl = synResults tm T tl := by
  unfold KeywordMatcher.match_synonyms KeywordMatcher.synonym_lookup synResults
  simp only
  rw [synonym_lookup_of_nodup tm T hs]
  rw [filterMap_ite]
  rfl

/-- Every result of the exact pass has score 1 and type `exact`. -/
theorem match_exact_shape (m : KeywordMatcher) (tl : List Char) :
    ∀ r ∈ m.match_exact tl, r.score = 1 ∧ r.match_type = "exact" := by
  intro r hr
  unfold KeywordMatcher.match_exact at hr
  obtain ⟨p, _, hp⟩ := List.mem_filterMap.1 hr
  by_cases h : occursWholeWord m.tm p.1.data tl
  · rw [if_pos h] at hp
    cases hp
    exact ⟨rfl, rfl⟩
  · rw [if_neg h] at hp
    cases hp

/-- Every result of the synonym pass has score 9/10 and type `synonym`. -/
theorem match_synonyms_shape (m : KeywordMatcher) (tl : List Char) :
    ∀ r ∈ m.match_synonyms tl, r.score = (9 : ℚ)/10 ∧ r.match_type = "synonym" := by
  intro r hr
  unfold KeywordMatcher.match_synonyms at hr
  obtain ⟨p, _, hp⟩ := List.mem_filterMap.1 hr
  by_cases h : occursWholeWord m.tm p.1.data tl
  · rw [if_pos h] at hp
    cases hp
    exact ⟨rfl, rfl⟩
  · rw [if_neg h] at hp
    cases hp

/-- Membership in `synEntries`. -/
theorem mem_synEntries (tm : TextModel) (T : Taxonomy)
    (e : String × (String × String)) :
    e ∈ synEntries tm T ↔
      ∃ p ∈ taxPairs T, ∃ s ∈ p.2.2, e = (lowerStr tm s, (p.1, p.2.1)) := by
  unfold synEntries
  rw [List.mem_flatMap]
  constructor
  · rintro ⟨p, hp, he⟩
    obtain ⟨s, hse, rfl⟩ := List.mem_map.1 he
    exact ⟨p, hp, s, hse, rfl⟩
  · rintro ⟨p, hp, s, hse, rfl⟩
    exact ⟨p, hp, List.mem_map_of_mem _ hse⟩

/-! ## Dedup-loop invariant -/

theorem nodup_fst_entry_unique {α : Type} :
    ∀ (l : List (String × α)), (l.map Prod.fst).Nodup →
      ∀ a ∈ l, ∀ b ∈ l, a.1 = b.1 → a = b := by
  intro l
  induction l with
  | nil => intro _ a ha; exact absurd ha (List.not_mem_nil a)
  | cons x l ih =>
    intro hnd a ha b hb hab
    have hx : x.1 ∉ l.map Prod.fst := (List.nodup_cons.1 (by simpa using hnd)).1
    have hnd2 : (l.map Prod.fst).Nodup := (List.nodup_cons.1 (by simpa using hnd)).2
    rcases List.mem_cons.1 ha with ha | ha <;> rcases List.mem_cons.1 hb with hb | hb
    · rw [ha, hb]
    · exfalso
      apply hx
      have hxb : x.1 = b.1 := by rw [← ha]; exact hab
      rw [hxb]
      exact List.mem_map_of_mem Prod.fst hb
    · exfalso
      apply hx
      have hxa : x.1 = a.1 := by rw [← hb]; exact hab.symm
      rw [hxa]
      exact List.mem_map_of_mem Prod.fst ha
    · exact ih hnd2 a ha b hb hab

theorem seenInv_nil : seenInv [] [] := by
  refine ⟨List.nodup_nil, ?_, ?_⟩ <;> intro kv hkv <;> cases hkv

theorem seenInv_step (pr : List MatchResult) (seen : List (String × MatchResult))
    (r : MatchResult) (h : seenInv pr seen) :
    seenInv (pr ++ [r]) (dedupStep seen r) := by
  obtain ⟨hnd, hent, hcov⟩ := h
  cases hf : seen.find? (fun p => p.1 = resKey r) with
  | none =>
    have hstep : dedupStep seen r = seen ++ [(resKey r, r)] := by
      unfold dedupStep
      simp only [hf]
    rw [hstep]
    have hnotin : ∀ p ∈ seen, p.1 ≠ resKey r := by
      intro p hp
      have := List.find?_eq_none.1 hf p hp
      simpa using this
    refine ⟨?_, ?_, ?_⟩
    · rw [List.map_append, List.nodup_append]
      refine ⟨hnd, by simp, ?_⟩
      intro k hk
      obtain ⟨p, hp, rfl⟩ := List.mem_map.1 hk
      simp only [List.map_cons, List.map_nil, List.mem_singleton]
      exact hnotin p hp
    · intro kv hkv
      rcases List.mem_append.1 hkv with hkvl | hkvr
      · obtain ⟨h1, h2, h3⟩ := hent kv hkvl
        refine ⟨h1, List.mem_append_left _ h2, ?_⟩
        intro q hq hqk
        rcases List.mem_append.1 hq with hql | hqr2
        · exact h3 q hql hqk
        · have hqr : q = r := List.mem_singleton.1 hqr2
          subst hqr
          exact absurd hqk.symm (hnotin kv hkvl)
      · have hkv2 : kv = (resKey r, r) := List.mem_singleton.1 hkvr
        subst hkv2
        refine ⟨rfl, List.mem_append_right _ (by simp), ?_⟩
        intro q hq hqk
        rcases List.mem_append.1 hq with hql | hqr2
        · exfalso
          have := hcov q hql
          rw [hqk] at this
          obtain ⟨p, hp, hpk⟩ := List.mem_map.1 this
          exact hnotin p hp hpk
        · have hqr : q = r := List.mem_singleton.1 hqr2
          subst hqr
          exact le_refl _
    · intro q hq
      rw [List.map_append]
      rcases List.mem_append.1 hq with hql | hqr2
      · exact List.mem_append_left _ (hcov q hql)
      · have hqr : q = r := List.mem_singleton.1 hqr2
        subst hqr
        exact List.mem_append_right _ (by simp)
  | some p =>
    have hpmem : p ∈ seen := List.mem_of_find?_eq_some hf
    have hpk : p.1 = resKey r := by
      have := List.find?_some hf
      simpa using this
    have hkeys : (seen.map (fun q => if q.1 = resKey r then (q.1, r) else q)).map Prod.fst =
        seen.map Prod.fst := by
      rw [List.map_map]
      apply List.map_congr_left
      intro q _
      by_cases hqk : q.1 = resKey r <;> simp [hqk]
    by_cases hlt : p.2.score < r.score
    · have hstep : dedupStep seen r =
          seen.map (fun q => if q.1 = resKey r then (q.1, r) else q) := by
        unfold dedupStep
        simp only [hf]
        rw [if_pos hlt]
      rw [hstep]
      refine ⟨?_, ?_, ?_⟩
      · rw [hkeys]; exact hnd
      · intro kv hkv
        obtain ⟨q0, hq0, hkv_eq⟩ := List.mem_map.1 hkv
        by_cases hq0k : q0.1 = resKey r
        · rw [if_pos hq0k] at hkv_eq
          have hq0p : q0 = p :=
            nodup_fst_entry_unique seen hnd q0 hq0 p hpmem (by rw [hq0k, hpk])
          subst hkv_eq
          refine ⟨by rw [hq0k], List.mem_append_right _ (by simp), ?_⟩
          intro q hq hqk2
          rcases List.mem_append.1 hq with hql | hqr2
          · have h3 := (hent p hpmem).2.2 q hql (by rw [hqk2, hq0k, ← hpk])
            exact le_of_lt (lt_of_le_of_lt h3 hlt)
          · have hqr : q = r := List.mem_singleton.1 hqr2
            subst hqr
            exact le_refl _
        · rw [if_neg hq0k] at hkv_eq
          subst hkv_eq
          obtain ⟨h1, h2, h3⟩ := hent q0 hq0
          refine ⟨h1, List.mem_append_left _ h2, ?_⟩
          intro q hq hqk2
          rcases List.mem_append.1 hq with hql | hqr2
          · exact h3 q hql hqk2
          · have hqr : q = r := List.mem_singleton.1 hqr2
            subst hqr
            exact absurd hqk2.symm hq0k
      · intro q hq
        rw [hkeys]
        rcases List.mem_append.1 hq with hql | hqr2
        · exact hcov q hql
        · have hqr : q = r := List.mem_singleton.1 hqr2
          subst hqr
          rw [← hpk]
          exact List.mem_map_of_mem Prod.fst hpmem
    · have hstep : dedupStep seen r = seen := by
        unfold dedupStep
        simp only [hf]
        rw [if_neg hlt]
      rw [hstep]
      refine ⟨hnd, ?_, ?_⟩
      · intro kv hkv
        obtain ⟨h1, h2, h3⟩ := hent kv hkv
        refine ⟨h1, List.mem_append_left _ h2, ?_⟩
        intro q hq hqk
        rcases List.mem_append.1 hq with hql | hqr2
        · exact h3 q hql hqk
        · have hqr : q = r := List.mem_singleton.1 hqr2
          subst hqr
          have hkvp : kv = p :=
            nodup_fst_entry_unique seen hnd kv hkv p hpmem (by rw [← hqk, hpk])
          rw [hkvp]
          exact not_lt.1 hlt
      · intro q hq
        rcases List.mem_append.1 hq with hql | hqr2
        · exact hcov q hql
        · have hqr : q = r := List.mem_singleton.1 hqr2
          subst hqr
          rw [← hpk]
          exact List.mem_map_of_mem Prod.fst hpmem

theorem seenInv_foldl :
    ∀ (rs pr : List MatchResult) (seen : List (String × MatchResult)),
      seenInv pr seen → seenInv (pr ++ rs) (rs.foldl dedupStep seen) := by
  intro rs
  induction rs with
  | nil => intro pr seen h; simpa using h
  | cons r rs ih =>
    intro pr seen h
    rw [List.foldl_cons]
    have := ih (pr ++ [r]) (dedupStep seen r) (seenInv_step pr seen r h)
    simpa [List.append_assoc] using this

theorem dedup_seenInv (rs : List MatchResult) :
    seenInv rs (rs.foldl dedupStep []) := by
  simpa using seenInv_foldl rs [] [] seenInv_nil

/-- Each deduplicated result is one of the inputs and has maximal score
among the inputs sharing its key. -/
theorem dedupResults_mem (rs : List MatchResult) :
    ∀ r ∈ dedupResults rs,
      r ∈ rs ∧ ∀ q ∈ rs, resKey q = resKey r → q.score ≤ r.score := by
  intro r hr
  obtain ⟨hnd, hent, hcov⟩ := dedup_seenInv rs
  obtain ⟨kv, hkv, rfl⟩ := List.mem_map.1 hr
  obtain ⟨h1, h2, h3⟩ := hent kv hkv
  exact ⟨h2, fun q hq hqk => h3 q hq (by rw [hqk, h1])⟩

/-- The deduplicated list holds at most one result per key. -/
theorem dedupResults_keys_nodup (rs : List MatchResult) :
    ((dedupResults rs).map resKey).Nodup := by
  obtain ⟨hnd, hent, _⟩ := dedup_seenInv rs
  unfold dedupResults
  rw [List.map_map]
  have : (rs.foldl dedupStep []).map (resKey ∘ fun p => p.2) =
      (rs.foldl dedupStep []).map Prod.fst := by
    apply List.map_congr_left
    intro kv hkv
    exact ((hent kv hkv).1).symm
  rw [this]
  exact hnd

/-- Every input key survives deduplication. -/
theorem dedupResults_covers (rs : List MatchResult) :
    ∀ q ∈ rs, ∃ r ∈ dedupResults rs, resKey r = resKey q := by
  intro q hq
  obtain ⟨hnd, hent, hcov⟩ := dedup_seenInv rs
  have := hcov q hq
  obtain ⟨kv, hkv, hkvk⟩ := List.mem_map.1 this
  refine ⟨kv.2, List.mem_map_of_mem _ hkv, ?_⟩
  rw [← (hent kv hkv).1, hkvk]

theorem countP_le_one_of_nodup_map {α : Type} (f : α → String) :
    ∀ (l : List α), ((l.map f).Nodup) → ∀ k, l.countP (fun x => f x = k) ≤ 1 := by
  intro l
  induction l with
  | nil => intro _ k; simp
  | cons a l ih =>
    intro hnd k
    have hna : f a ∉ l.map f := (List.nodup_cons.1 (by simpa using hnd)).1
    have hnd2 : (l.map f).Nodup := (List.nodup_cons.1 (by simpa using hnd)).2
    rw [List.countP_cons]
    by_cases hak : f a = k
    · have h0 : l.countP (fun x => f x = k) = 0 := by
        rw [List.countP_eq_zero]
        intro x hx
        simp only [decide_eq_true_eq]
        intro hxk
        apply hna
        rw [← hak] at hxk
        rw [← hxk]
        exact List.mem_map_of_mem f hx
      simp [h0, hak]
    · have hdec : (decide (f a = k)) = false := by simpa using hak
      simp only [hdec, Bool.false_eq_true, if_false, Nat.add_zero]
      exact ih hnd2 k

/-- Results of `match` come from the exact or the synonym pass. -/
theorem matchText_mem_sub (m : KeywordMatcher) (text : String) :
    ∀ r ∈ m.matchText text,
      r ∈ m.match_exact (lowerStr m.tm text).data ∨
      r ∈ m.match_synonyms (lowerStr m.tm text).data := by
  intro r hr
  unfold KeywordMatcher.matchText at hr
  rw [List.mem_insertionSort] at hr
  exact List.mem_append.1 (dedupResults_mem _ r hr).1

/-! ## C10 — lowercase lookup keys shadow across groups

General facts about Python-dict replay: keys are unique, the held value is
the last-assigned one, and every held entry is one of the assignments. -/

theorem buildDict_append (L : List (String × (String × String)))
    (e : String × (String × String)) :
    buildDict (L ++ [e]) = dictInsert (buildDict L) e.1 e.2 := by
  unfold buildDict
  rw [List.foldl_append]
  rfl

theorem dictInsert_keys {α : Type} (m : List (String × α)) (k : String) (v : α) :
    (dictInsert m k v).map Prod.fst =
      if m.any (fun p => p.1 = k) then m.map Prod.fst else m.map Prod.fst ++ [k] := by
  unfold dictInsert
  by_cases h : m.any (fun p => p.1 = k) = true
  · rw [if_pos h, if_pos h, List.map_map]
    apply List.map_congr_left
    intro p _
    by_cases hp : p.1 = k <;> simp [hp]
  · rw [if_neg h, if_neg h, List.map_append]
    rfl

/-- Replaying assignments into a dict yields unique keys, exactly the
assigned ones. -/
theorem buildDict_keys :
    ∀ L : List (String × (String × String)),
      ((buildDict L).map Prod.fst).Nodup ∧
      (∀ k, k ∈ (buildDict L).map Prod.fst ↔ k ∈ L.map Prod.fst) := by
  intro L
  induction L using List.reverseRecOn with
  | nil =>
    refine ⟨by simp [buildDict], ?_⟩
    intro k
    simp [buildDict]
  | append_singleton L e ih =>
    obtain ⟨ihnd, ihmem⟩ := ih
    rw [buildDict_append, dictInsert_keys]
    by_cases h : (buildDict L).any (fun p => p.1 = e.1) = true
    · rw [if_pos h]
      have he1 : e.1 ∈ L.map Prod.fst := by
        rw [List.any_eq_true] at h
        obtain ⟨p, hp, hpe⟩ := h
        rw [decide_eq_true_eq] at hpe
        exact (ihmem e.1).1 (by rw [← hpe]; exact List.mem_map_of_mem _ hp)
      refine ⟨ihnd, ?_⟩
      intro k
      rw [ihmem k, List.map_append]
      constructor
      · intro hk
        exact List.mem_append_left _ hk
      · intro hk
        rcases List.mem_append.1 hk with hk | hk
        · exact hk
        · have hke : k = e.1 := by simpa using hk
          rw [hke]
          exact he1
    · rw [if_neg h]
      have he1 : e.1 ∉ (buildDict L).map Prod.fst := by
        intro hmem
        apply h
        rw [List.any_eq_true]
        obtain ⟨p, hp, hpe⟩ := List.mem_map.1 hmem
        exact ⟨p, hp, by rw [decide_eq_true_eq]; exact hpe⟩
      constructor
      · rw [List.nodup_append]
        refine ⟨ihnd, by simp, ?_⟩
        intro k hk
        simp only [List.mem_singleton]
        intro hke
        rw [hke] at hk
        exact he1 hk
      · intro k
        simp [List.mem_append, ihmem k]

/-- Every dict entry is one of the replayed assignments. -/
theorem buildDict_mem_source :
    ∀ (L : List (String × (String × String))) (x : String × (String × String)),
      x ∈ buildDict L → x ∈ L := by
  intro L
  induction L using List.reverseRecOn with
  | nil =>
    intro x hx
    simp [buildDict] at hx
  | append_singleton L e ih =>
    intro x hx
    rw [buildDict_append] at hx
    unfold dictInsert at hx
    by_cases h : (buildDict L).any (fun p => p.1 = e.1) = true
    · rw [if_pos h] at hx
      obtain ⟨q, hq, hqe⟩ := List.mem_map.1 hx
      by_cases hqk : q.1 = e.1
      · rw [if_pos hqk] at hqe
        rw [← hqe, Prod.mk.eta]
        exact List.mem_append_right _ (by simp)
      · rw [if_neg hqk] at hqe
        rw [← hqe]
        exact List.mem_append_left _ (ih q hq)
    · rw [if_neg h] at hx
      rcases List.mem_append.1 hx with hx | hx
      · exact List.mem_append_left _ (ih x hx)
      · have hxe : x = (e.1, e.2) := by simpa using hx
        rw [hxe, Prod.mk.eta]
        exact List.mem_append_right _ (by simp)

/-- The dict holds `(k, v)` exactly when `v` is the value of the *last*
assignment with key `k` — a later-inserted entry silently overwrites an
earlier one. -/
theorem buildDict_lastAssoc :
    ∀ (L : List (String × (String × String))) (k : String) (v : String × String),
      ((k, v) ∈ buildDict L ↔ lastAssoc L k = some v) := by
  intro L
  induction L using List.reverseRecOn with
  | nil => intro k v; simp [buildDict, lastAssoc]
  | append_singleton L e ih =>
    intro k v
    rw [buildDict_append]
    by_cases hek : e.1 = k
    · subst hek
      have hR : lastAssoc (L ++ [e]) e.1 = some e.2 := by
        unfold lastAssoc
        rw [List.filter_append]
        have hfe : List.filter (fun x => x.1 = e.1) [e] = [e] := by
          simp [List.filter_cons]
        rw [hfe, List.map_append]
        exact List.getLast?_concat _
      rw [hR, Option.some_inj]
      unfold dictInsert
      by_cases hmem : (buildDict L).any (fun p => p.1 = e.1) = true
      · rw [if_pos hmem]
        constructor
        · intro hin
          obtain ⟨q, hq, hqe⟩ := List.mem_map.1 hin
          by_cases hqk : q.1 = e.1
          · rw [if_pos hqk] at hqe
            exact (Prod.ext_iff.1 hqe).2
          · rw [if_neg hqk] at hqe
            exfalso
            apply hqk
            rw [hqe]
        · intro hv
          rw [List.any_eq_true] at hmem
          obtain ⟨q, hq, hqk⟩ := hmem
          rw [decide_eq_true_eq] at hqk
          refine List.mem_map.2 ⟨q, hq, ?_⟩
          rw [if_pos hqk, hv]
      · rw [if_neg hmem]
        constructor
        · intro hin
          rcases List.mem_append.1 hin with hin | hin
          · exfalso
            apply hmem
            rw [List.any_eq_true]
            exact ⟨(e.1, v), hin, by simp⟩
          · have hev : (e.1, v) = (e.1, e.2) := by simpa using hin
            exact (Prod.ext_iff.1 hev).2.symm
        · intro hv
          rw [hv]
          exact List.mem_append_right _ (by simp)
    · have hR : lastAssoc (L ++ [e]) k = lastAssoc L k := by
        unfold lastAssoc
        rw [List.filter_append]
        have hfe : List.filter (fun x => x.1 = k) [e] = [] := by
          simp [List.filter_cons, hek]
        rw [hfe, List.append_nil]
      rw [hR, ← ih k v]
      unfold dictInsert
      by_cases hmem : (buildDict L).any (fun p => p.1 = e.1) = true
      · rw [if_pos hmem]
        constructor
        · intro hin
          obtain ⟨q, hq, hqe⟩ := List.mem_map.1 hin
          by_cases hqk : q.1 = e.1
          · rw [if_pos hqk] at hqe
            exfalso
            apply hek
            exact (Prod.ext_iff.1 hqe).1
          · rw [if_neg hqk] at hqe
            rw [← hqe]
            exact hq
        · intro hin
          refine List.mem_map.2 ⟨(k, v), hin, ?_⟩
          rw [if_neg (fun hc => hek hc.symm)]
      · rw [if_neg hmem]
        constructor
        · intro hin
          rcases List.mem_append.1 hin with hin | hin
          · exact hin
          · exfalso
            apply hek
            have hev : (k, v) = (e.1, e.2) := by simpa using hin
            exact ((Prod.ext_iff.1 hev).1).symm
        · intro hin
          exact List.mem_append_left _ hin

/-- Every exact-table entry is keyed by the lowercased form of the
canonical it stores. -/
theorem exact_lookup_entry_key (tm : TextModel) (T : Taxonomy) :
    ∀ kv ∈ build_exact_lookup tm T, kv.1 = lowerStr tm kv.2.2 := by
  intro kv hkv
  rw [build_exact_lookup_eq] at hkv
  have hsrc := buildDict_mem_source _ kv hkv
  unfold exactEntries at hsrc
  obtain ⟨p, _, hpe⟩ := List.mem_map.1 hsrc
  rw [← hpe]

/-- Each exact-pass result carries the group and canonical of some
exact-table entry. -/
theorem match_exact_entry (m : KeywordMatcher) (tl : List Char) :
    ∀ r ∈ m.match_exact tl,
      ∃ e ∈ m.exact_lookup, r.keyword_group = e.2.1 ∧ r.keyword = e.2.2 := by
  intro r hr
  unfold KeywordMatcher.match_exact at hr
  obtain ⟨e, he, hfe⟩ := List.mem_filterMap.1 hr
  by_cases h : occursWholeWord m.tm e.1.data tl
  · rw [if_pos h] at hfe
    cases hfe
    exact ⟨e, he, rfl, rfl⟩
  · rw [if_neg h] at hfe
    cases hfe

/-- Each synonym-pass result carries the group, canonical and matched
token of some synonym-table entry. -/
theorem match_synonyms_entry (m : KeywordMatcher) (tl : List Char) :
    ∀ r ∈ m.match_synonyms tl,
      ∃ e ∈ m.synonym_lookup,
        r.keyword_group = e.2.1 ∧ r.keyword = e.2.2 ∧ r.matched_text = some e.1 := by
  intro r hr
  unfold KeywordMatcher.match_synonyms at hr
  obtain ⟨e, he, hfe⟩ := List.mem_filterMap.1 hr
  by_cases h : occursWholeWord m.tm e.1.data tl
  · rw [if_pos h] at hfe
    cases hfe
    exact ⟨e, he, rfl, rfl, rfl⟩
  · rw [if_neg h] at hfe
    cases hfe

/-- An exact-kind result of `match` comes from an exact-table entry. -/
theorem matchText_exact_entry (tm : TextModel) (T : Taxonomy) (text : String) :
    ∀ r ∈ KeywordMatcher.matchText ⟨tm, T⟩ text, r.match_type = "exact" →
      ∃ e ∈ build_exact_lookup tm T, r.keyword_group = e.2.1 ∧ r.keyword = e.2.2 := by
  intro r hr hty
  rcases matchText_mem_sub _ text r hr with h | h
  · exact match_exact_entry _ _ r h
  · exfalso
    have hsyn := (match_synonyms_shape _ _ r h).2
    rw [hty] at hsyn
    exact absurd hsyn (by decide)

/-- A synonym-kind result of `match` comes from a synonym-table entry. -/
theorem matchText_synonym_entry (tm : TextModel) (T : Taxonomy) (text : String) :
    ∀ r ∈ KeywordMatcher.matchText ⟨tm, T⟩ text, r.match_type = "synonym" →
      ∃ e ∈ build_synonym_lookup tm T,
        r.keyword_group = e.2.1 ∧ r.keyword = e.2.2 ∧ r.matched_text = some e.1 := by
  intro r hr hty
  rcases matchText_mem_sub _ text r hr with h | h
  · exfalso
    have hex := (match_exact_shape _ _ r h).2
    rw [hty] at hex
    exact absurd hex (by decide)
  · exact match_synonyms_entry _ _ r h

/-- C10 (amended): for *every* taxonomy, the lookup tables key canonicals
and synonyms by lowercased form globally — each table holds at most one
entry per token, namely the `(group, canonical)` of the *last* keyword
(resp. synonym) inserted with that token.  Consequently `match` reports at
most one `(group, canonical)` pair per lowercased canonical token among
exact matches and at most one per synonym token among synonym matches, and
a keyword whose token was overwritten by a later entry is never reported
through it: no exact match for a shadowed canonical, no synonym match
through a shadowed synonym token. -/
theorem c10_lookup_overwrite_per_token (tm : TextModel) (T : Taxonomy) :
    ((build_exact_lookup tm T).map Prod.fst).Nodup ∧
    ((build_synonym_lookup tm T).map Prod.fst).Nodup ∧
    (∀ (k : String) (v : String × String),
      (k, v) ∈ build_exact_lookup tm T ↔ lastAssoc (exactEntries tm T) k = some v) ∧
    (∀ (k : String) (v : String × String),
      (k, v) ∈ build_synonym_lookup tm T ↔ lastAssoc (synEntries tm T) k = some v) ∧
    (∀ (text : String) (r1 r2 : MatchResult),
      r1 ∈ KeywordMatcher.matchText ⟨tm, T⟩ text →
      r2 ∈ KeywordMatcher.matchText ⟨tm, T⟩ text →
      r1.match_type = "exact" → r2.match_type = "exact" →
      lowerStr tm r1.keyword = lowerStr tm r2.keyword →
      r1.keyword_group = r2.keyword_group ∧ r1.keyword = r2.keyword) ∧
    (∀ (text : String) (r1 r2 : MatchResult),
      r1 ∈ KeywordMatcher.matchText ⟨tm, T⟩ text →
      r2 ∈ KeywordMatcher.matchText ⟨tm, T⟩ text →
      r1.match_type = "synonym" → r2.match_type = "synonym" →
      r1.matched_text = r2.matched_text →
      r1.keyword_group = r2.keyword_group ∧ r1.keyword = r2.keyword) ∧
    (∀ (g c : String),
      lastAssoc (exactEntries tm T) (lowerStr tm c) ≠ some (g, c) →
      ∀ (text : String) (r : MatchResult),
        r ∈ KeywordMatcher.matchText ⟨tm, T⟩ text →
        r.match_type = "exact" →
        ¬(r.keyword_group = g ∧ r.keyword = c)) ∧
    (∀ (g c k : String),
      lastAssoc (synEntries tm T) k ≠ some (g, c) →
      ∀ (text : String) (r : MatchResult),
        r ∈ KeywordMatcher.matchText ⟨tm, T⟩ text →
        r.match_type = "synonym" → r.matched_text = some k →
        ¬(r.keyword_group = g ∧ r.keyword = c)) := by
  have hEnd : ((build_exact_lookup tm T).map Prod.fst).Nodup := by
    rw [build_exact_lookup_eq]
    exact (buildDict_keys (exactEntries tm T)).1
  have hSnd : ((build_synonym_lookup tm T).map Prod.fst).Nodup := by
    rw [build_synonym_lookup_eq]
    exact (buildDict_keys (synEntries tm T)).1
  have hElast : ∀ (k : String) (v : String × String),
      (k, v) ∈ build_exact_lookup tm T ↔ lastAssoc (exactEntries tm T) k = some v := by
    intro k v
    rw [build_exact_lookup_eq]
    exact buildDict_lastAssoc _ k v
  have hSlast : ∀ (k : String) (v : String × String),
      (k, v) ∈ build_synonym_lookup tm T ↔ lastAssoc (synEntries tm T) k = some v := by
    intro k v
    rw [build_synonym_lookup_eq]
    exact buildDict_lastAssoc _ k v
  refine ⟨hEnd, hSnd, hElast, hSlast, ?_, ?_, ?_, ?_⟩
  · intro text r1 r2 hr1 hr2 ht1 ht2 hlow
    obtain ⟨e1, he1, hg1, hw1⟩ := matchText_exact_entry tm T text r1 hr1 ht1
    obtain ⟨e2, he2, hg2, hw2⟩ := matchText_exact_entry tm T text r2 hr2 ht2
    have hk1 : e1.1 = lowerStr tm r1.keyword := by
      rw [hw1]
      exact exact_lookup_entry_key tm T e1 he1
    have hk2 : e2.1 = lowerStr tm r2.keyword := by
      rw [hw2]
      exact exact_lookup_entry_key tm T e2 he2
    have hee : e1 = e2 :=
      nodup_fst_entry_unique _ hEnd e1 he1 e2 he2 (by rw [hk1, hk2, hlow])
    rw [hg1, hw1, hg2, hw2, hee]
    exact ⟨rfl, rfl⟩
  · intro text r1 r2 hr1 hr2 ht1 ht2 htok
    obtain ⟨e1, he1, hg1, hw1, hm1⟩ := matchText_synonym_entry tm T text r1 hr1 ht1
    obtain ⟨e2, he2, hg2, hw2, hm2⟩ := matchText_synonym_entry tm T text r2 hr2 ht2
    have hkk : e1.1 = e2.1 := by
      have h12 : some e1.1 = some e2.1 := by rw [← hm1, ← hm2, htok]
      exact Option.some_inj.1 h12
    have hee : e1 = e2 := nodup_fst_entry_unique _ hSnd e1 he1 e2 he2 hkk
    rw [hg1, hw1, hg2, hw2, hee]
    exact ⟨rfl, rfl⟩
  · intro g c hshadow text r hr hty hgc
    obtain ⟨e, he, hg, hw⟩ := matchText_exact_entry tm T text r hr hty
    have hv : e.2 = (g, c) := by
      have h1 : e.2.1 = g := by rw [← hg, hgc.1]
      have h2 : e.2.2 = c := by rw [← hw, hgc.2]
      rw [← h1, ← h2, Prod.mk.eta]
    have hkey : e.1 = lowerStr tm c := by
      have := exact_lookup_entry_key tm T e he
      rw [this, hv]
    have hmem : (lowerStr tm c, (g, c)) ∈ build_exact_lookup tm T := by
      rw [← hkey, ← hv, Prod.mk.eta]
      exact he
    exact hshadow ((hElast _ _).1 hmem)
  · intro g c k hshadow text r hr hty htok hgc
    obtain ⟨e, he, hg, hw, hm⟩ := matchText_synonym_entry tm T text r hr hty
    have hv : e.2 = (g, c) := by
      have h1 : e.2.1 = g := by rw [← hg, hgc.1]
      have h2 : e.2.2 = c := by rw [← hw, hgc.2]
      rw [← h1, ← h2, Prod.mk.eta]
    have hkey : e.1 = k := by
      have h12 : some e.1 = some k := by rw [← hm, htok]
      exact Option.some_inj.1 h12
    have hmem : (k, (g, c)) ∈ build_synonym_lookup tm T := by
      rw [← hkey, ← hv, Prod.mk.eta]
      exact he
    exact hshadow ((hSlast _ _).1 hmem)

/-- C10 counterexample to the claim as stated: in `rescueTaxonomy` the two
groups share the canonical `AI`/`ai` up to case and `G2`'s later entry
shadows `G1`'s in the exact table — yet the shadowed keyword `(G1, AI)`
*can* still be matched: its synonym entry survives, and the text
`"artificial intelligence"` yields exactly one result, a synonym-kind match
reporting `(G1, AI)`. -/
theorem c10_shadowed_keyword_rescued_counterexample :
    lowerStr asciiTM "AI" = lowerStr asciiTM "ai" ∧
    build_exact_lookup asciiTM rescueTaxonomy = [(lowerStr asciiTM "AI", ("G2", "ai"))] ∧
    (KeywordMatcher.matchText ⟨asciiTM, rescueTaxonomy⟩ "artificial intelligence").countP
      (isPairRes "G1" "AI") = 1 ∧
    (KeywordMatcher.matchText ⟨asciiTM, rescueTaxonomy⟩ "artificial intelligence").countP
      (fun r => decide (r.match_type = "synonym")) = 1 ∧
    (KeywordMatcher.matchText ⟨asciiTM, rescueTaxonomy⟩ "artificial intelligence").length = 1 := by
  decide

/-- C10 witness: at `shadowTaxonomy`, the exact table's keys are unique,
`G1`'s shadowed entry is not the last-held value at its token, and the
exact-kind result returned for the text `"ai"` does not report the
shadowed pair `(G1, ai)`. -/
theorem c10_lookup_overwrite_witness :
    ((build_exact_lookup asciiTM shadowTaxonomy).map Prod.fst).Nodup ∧
    ¬((MatchResult.mk "AI" "G2" "exact" 1 (some "AI")).keyword_group = "G1" ∧
      (MatchResult.mk "AI" "G2" "exact" 1 (some "AI")).keyword = "ai") :=
  ⟨(c10_lookup_overwrite_per_token asciiTM shadowTaxonomy).1,
   (c10_lookup_overwrite_per_token asciiTM shadowTaxonomy).2.2.2.2.2.2.1
     "G1" "ai" (by decide) "ai" (MatchResult.mk "AI" "G2" "exact" 1 (some "AI"))
     (by decide) rfl⟩

/-! ## C1 — full characterization of `match` without semantic matching -/

/-- Key-injectivity of taxonomy pairs under distinct `group:canonical`
keys. -/
theorem taxPairs_key_inj (T : Taxonomy)
    (hk : ((taxPairs T).map (fun p => keyStr p.1 p.2.1)).Nodup) :
    ∀ p ∈ taxPairs T, ∀ q ∈ taxPairs T,
      keyStr p.1 p.2.1 = keyStr q.1 q.2.1 → p = q :=
  (List.nodup_map_iff_inj_on (List.Nodup.of_map _ hk)).1 hk

/-- Where each combined-pass result comes from. -/
theorem matcher_source (tm : TextModel) (T : Taxonomy) (tl : List Char) :
    ∀ r ∈ exactResults tm T tl ++ synResults tm T tl,
      ∃ p ∈ taxPairs T,
        r.keyword_group = p.1 ∧ r.keyword = p.2.1 ∧
        resKey r = keyStr p.1 p.2.1 ∧
        ((r = mkExactRes p ∧ canonOccurs tm p.2.1 tl = true) ∨
         (r.score = (9 : ℚ)/10 ∧ r.match_type = "synonym" ∧
           synOccurs tm p.2.2 tl = true)) := by
  intro r hr
  rcases List.mem_append.1 hr with hr | hr
  · obtain ⟨p, hpf, rfl⟩ := List.mem_map.1 hr
    have hpm := List.mem_filter.1 hpf
    exact ⟨p, hpm.1, rfl, rfl, rfl, Or.inl ⟨rfl, hpm.2⟩⟩
  · obtain ⟨e, hef, rfl⟩ := List.mem_map.1 hr
    have hem := List.mem_filter.1 hef
    obtain ⟨p, hp, s2, hs2, rfl⟩ := (mem_synEntries tm T e).1 hem.1
    refine ⟨p, hp, rfl, rfl, rfl, Or.inr ⟨rfl, rfl, ?_⟩⟩
    unfold synOccurs
    rw [List.any_eq_true]
    exact ⟨s2, hs2, hem.2⟩

/-- Any deduplicated result carrying the key of the taxonomy pair `p` is
`p`'s own: it reports `p`'s group and canonical; it is the score-1 exact
result when `p`'s canonical occurs, and a score-0.9 synonym result
otherwise. -/
theorem matcher_key_result (tm : TextModel) (T : Taxonomy) (tl : List Char)
    (hk : ((taxPairs T).map (fun p => keyStr p.1 p.2.1)).Nodup)
    (p : String × String × List String) (hp : p ∈ taxPairs T) :
    ∀ r ∈ dedupResults (exactResults tm T tl ++ synResults tm T tl),
      resKey r = keyStr p.1 p.2.1 →
      r.keyword_group = p.1 ∧ r.keyword = p.2.1 ∧
      (canonOccurs tm p.2.1 tl = true →
        r.score = 1 ∧ r.match_type = "exact") ∧
      (canonOccurs tm p.2.1 tl = false →
        r.score = (9 : ℚ)/10 ∧ r.match_type = "synonym" ∧
          synOccurs tm p.2.2 tl = true) := by
  intro r hds hkey
  obtain ⟨hin, hmax⟩ := dedupResults_mem _ r hds
  obtain ⟨p2, hp2, hg2, hw2, hk2, hcase⟩ := matcher_source tm T tl r hin
  have hpp : p2 = p := taxPairs_key_inj T hk p2 hp2 p hp (by rw [← hk2, hkey])
  subst hpp
  refine ⟨hg2, hw2, ?_, ?_⟩
  · intro hco
    have hmkE : mkExactRes p2 ∈ exactResults tm T tl ++ synResults tm T tl := by
      apply List.mem_append_left
      unfold exactResults
      exact List.mem_map_of_mem _ (List.mem_filter.2 ⟨hp2, hco⟩)
    have hone : (1 : ℚ) ≤ r.score := hmax (mkExactRes p2) hmkE (by rw [hk2]; rfl)
    rcases hcase with ⟨hre, _⟩ | ⟨hsc, _, _⟩
    · rw [hre]
      exact ⟨rfl, rfl⟩
    · exfalso
      rw [hsc] at hone
      norm_num at hone
  · intro hco
    rcases hcase with ⟨_, hco2⟩ | ⟨hsc, hty, hso⟩
    · rw [hco] at hco2
      cases hco2
    · exact ⟨hsc, hty, hso⟩

/-- C1 (amended): for every taxonomy whose lowercased canonical forms are
pairwise distinct, whose lowercased synonyms are pairwise distinct and
whose `group:canonical` dedup keys are pairwise distinct, and every text:
`match` with semantic matching disabled returns exactly one result per
`(group, canonical)` pair whose canonical occurs whole-word
(case-insensitively) — scored 1.0 with kind `exact` — or, when only a
synonym occurs, scored 0.9 with kind `synonym`; pairs with no occurrence
get no result, every result reports a taxonomy pair, and the list is
sorted by score descending. -/
theorem c1_match_characterization (tm : TextModel) (T : Taxonomy) (text : String)
    (hc : ((exactEntries tm T).map Prod.fst).Nodup)
    (hs : ((synEntries tm T).map Prod.fst).Nodup)
    (hk : ((taxPairs T).map (fun p => keyStr p.1 p.2.1)).Nodup) :
    (∀ p ∈ taxPairs T,
      (canonOccurs tm p.2.1 (lowerStr tm text).data = true →
        (KeywordMatcher.matchText ⟨tm, T⟩ text).countP (isPairRes p.1 p.2.1) = 1 ∧
        ∀ r ∈ KeywordMatcher.matchText ⟨tm, T⟩ text,
          isPairRes p.1 p.2.1 r = true → r.score = 1 ∧ r.match_type = "exact") ∧
      (canonOccurs tm p.2.1 (lowerStr tm text).data = false →
        synOccurs tm p.2.2 (lowerStr tm text).data = true →
        (KeywordMatcher.matchText ⟨tm, T⟩ text).countP (isPairRes p.1 p.2.1) = 1 ∧
        ∀ r ∈ KeywordMatcher.matchText ⟨tm, T⟩ text,
          isPairRes p.1 p.2.1 r = true →
            r.score = (9 : ℚ)/10 ∧ r.match_type = "synonym") ∧
      (canonOccurs tm p.2.1 (lowerStr tm text).data = false →
        synOccurs tm p.2.2 (lowerStr tm text).data = false →
        (KeywordMatcher.matchText ⟨tm, T⟩ text).countP (isPairRes p.1 p.2.1) = 0)) ∧
    (∀ r ∈ KeywordMatcher.matchText ⟨tm, T⟩ text,
      ∃ p ∈ taxPairs T, r.keyword_group = p.1 ∧ r.keyword = p.2.1 ∧
        (r.match_type = "exact" ∨ r.match_type = "synonym")) ∧
    (KeywordMatcher.matchText ⟨tm, T⟩ text).Sorted scoreDesc := by
  have hout : KeywordMatcher.matchText ⟨tm, T⟩ text =
      List.insertionSort scoreDesc
        (dedupResults (exactResults tm T (lowerStr tm text).data ++
          synResults tm T (lowerStr tm text).data)) := by
    show List.insertionSort scoreDesc
        (dedupResults
          (KeywordMatcher.match_exact ⟨tm, T⟩ (lowerStr tm text).data ++
            KeywordMatcher.match_synonyms ⟨tm, T⟩ (lowerStr tm text).data)) = _
    rw [match_exact_eq tm T _ hc, match_synonyms_eq tm T _ hs]
  set tl := (lowerStr tm text).data with htl
  set DS := dedupResults (exactResults tm T tl ++ synResults tm T tl) with hDSdef
  have hperm : (KeywordMatcher.matchText ⟨tm, T⟩ text).Perm DS := by
    rw [hout]
    exact List.perm_insertionSort scoreDesc DS
  have hmemout : ∀ r : MatchResult,
      r ∈ KeywordMatcher.matchText ⟨tm, T⟩ text ↔ r ∈ DS :=
    fun r => hperm.mem_iff
  have hcount : ∀ pred : MatchResult → Bool,
      (KeywordMatcher.matchText ⟨tm, T⟩ text).countP pred = DS.countP pred :=
    fun pred => hperm.countP_eq pred
  have hpairkey : ∀ (g c : String) (x : MatchResult),
      isPairRes g c x = true → resKey x = keyStr g c := by
    intro g c x hx
    unfold isPairRes at hx
    rw [decide_eq_true_eq] at hx
    unfold resKey keyStr
    rw [hx.1, hx.2]
  have hle1 : ∀ p : String × String × List String,
      DS.countP (isPairRes p.1 p.2.1) ≤ 1 := by
    intro p
    calc DS.countP (isPairRes p.1 p.2.1)
        ≤ DS.countP (fun x => resKey x = keyStr p.1 p.2.1) :=
          List.countP_mono_left (fun x _ hx => by
            rw [decide_eq_true_eq]
            exact hpairkey _ _ x hx)
      _ ≤ 1 := countP_le_one_of_nodup_map resKey DS
            (dedupResults_keys_nodup _) (keyStr p.1 p.2.1)
  refine ⟨?_, ?_, ?_⟩
  · intro p hp
    refine ⟨?_, ?_, ?_⟩
    · intro hco
      have hmkE : mkExactRes p ∈ exactResults tm T tl ++ synResults tm T tl := by
        apply List.mem_append_left
        unfold exactResults
        exact List.mem_map_of_mem _ (List.mem_filter.2 ⟨hp, hco⟩)
      obtain ⟨r0, hr0, hr0k⟩ := dedupResults_covers _ (mkExactRes p) hmkE
      have hr0k2 : resKey r0 = keyStr p.1 p.2.1 := by rw [hr0k]; rfl
      have hkeyres := matcher_key_result tm T tl hk p hp r0 hr0 hr0k2
      constructor
      · rw [hcount]
        have hpos : 0 < DS.countP (isPairRes p.1 p.2.1) := by
          apply List.countP_pos_iff.2
          refine ⟨r0, hr0, ?_⟩
          unfold isPairRes
          rw [decide_eq_true_eq]
          exact ⟨hkeyres.1, hkeyres.2.1⟩
        have hle := hle1 p
        omega
      · intro r hr hpr
        have hrDS : r ∈ DS := (hmemout r).1 hr
        have hkr := hpairkey _ _ r hpr
        exact (matcher_key_result tm T tl hk p hp r hrDS hkr).2.2.1 hco
    · intro hco hso
      have hso2 := hso
      unfold synOccurs at hso2
      rw [List.any_eq_true] at hso2
      obtain ⟨s2, hs2, hocc⟩ := hso2
      have hmkS : mkSynRes (lowerStr tm s2, (p.1, p.2.1)) ∈
          exactResults tm T tl ++ synResults tm T tl := by
        apply List.mem_append_right
        unfold synResults
        apply List.mem_map_of_mem
        exact List.mem_filter.2 ⟨(mem_synEntries tm T _).2 ⟨p, hp, s2, hs2, rfl⟩, hocc⟩
      obtain ⟨r0, hr0, hr0k⟩ := dedupResults_covers _ _ hmkS
      have hr0k2 : resKey r0 = keyStr p.1 p.2.1 := by rw [hr0k]; rfl
      have hkeyres := matcher_key_result tm T tl hk p hp r0 hr0 hr0k2
      constructor
      · rw [hcount]
        have hpos : 0 < DS.countP (isPairRes p.1 p.2.1) := by
          apply List.countP_pos_iff.2
          refine ⟨r0, hr0, ?_⟩
          unfold isPairRes
          rw [decide_eq_true_eq]
          exact ⟨hkeyres.1, hkeyres.2.1⟩
        have hle := hle1 p
        omega
      · intro r hr hpr
        have hrDS : r ∈ DS := (hmemout r).1 hr
        have hkr := hpairkey _ _ r hpr
        have hres := (matcher_key_result tm T tl hk p hp r hrDS hkr).2.2.2 hco
        exact ⟨hres.1, hres.2.1⟩
    · intro hco hso
      rw [hcount]
      rw [List.countP_eq_zero]
      intro r hrDS hpr
      have hkr := hpairkey _ _ r hpr
      have hres := (matcher_key_result tm T tl hk p hp r hrDS hkr).2.2.2 hco
      have hcontra := hres.2.2
      rw [hso] at hcontra
      cases hcontra
  · intro r hr
    have hrDS : r ∈ DS := (hmemout r).1 hr
    obtain ⟨hin, _⟩ := dedupResults_mem _ r hrDS
    obtain ⟨p2, hp2, hg, hw, _, hcase⟩ := matcher_source tm T tl r hin
    refine ⟨p2, hp2, hg, hw, ?_⟩
    rcases hcase with ⟨hre, _⟩ | ⟨_, hty, _⟩
    · left
      rw [hre]
      rfl
    · right
      exact hty
  · rw [hout]
    exact List.sorted_insertionSort scoreDesc DS

/-- C1 counterexample to the claim as stated over *every* taxonomy: in
`shadowTaxonomy` the pair `(G1, ai)`'s canonical occurs as a whole word in
the text `"ai"`, yet `match` returns no result for that pair — the global
lowercase lookup let `G2`'s entry overwrite it. -/
theorem c1_shadowed_pair_counterexample :
    ("G1", "ai", ([] : List String)) ∈ taxPairs shadowTaxonomy ∧
    canonOccurs asciiTM "ai" (lowerStr asciiTM "ai").data = true ∧
    (KeywordMatcher.matchText ⟨asciiTM, shadowTaxonomy⟩ "ai").countP
      (isPairRes "G1" "ai") = 0 := by
  decide

/-- C1 witness: the spec's scenario-3 taxonomy (collision-free) matched
against `"오픈AI partners with NVIDIA"`: exactly one result for
`(Hardware, NVIDIA)` (canonical occurrence) and one for `(Vendors, OpenAI)`
(synonym-only occurrence). -/
theorem c1_match_characterization_witness :
    (KeywordMatcher.matchText ⟨uniTM, vendorTaxonomy⟩ "오픈AI partners with NVIDIA").countP
      (isPairRes "Hardware" "NVIDIA") = 1 ∧
    (KeywordMatcher.matchText ⟨uniTM, vendorTaxonomy⟩ "오픈AI partners with NVIDIA").countP
      (isPairRes "Vendors" "OpenAI") = 1 ∧
    (KeywordMatcher.matchText ⟨uniTM, vendorTaxonomy⟩ "오픈AI partners with NVIDIA").Sorted
      scoreDesc := by
  have h := c1_match_characterization uniTM vendorTaxonomy "오픈AI partners with NVIDIA"
    (by decide) (by decide) (by decide)
  refine ⟨?_, ?_, h.2.2⟩
  · exact ((h.1 ("Hardware", "NVIDIA", []) (by decide)).1 (by decide)).1
  · exact ((h.1 ("Vendors", "OpenAI", ["오픈AI", "Open AI"]) (by decide)).2.1
      (by decide) (by decide)).1

end CrawlAI
